import Mathlib

/-!
# Verification of the trace logger `log.cpp` (namespace `Log`)

Shallow embedding of the logger: bytes are natural numbers, a C string is the
list of bytes of its buffer (its content is the prefix before the first zero
byte, the end of the list standing for the terminator when the buffer holds
none), the file-scope globals of `log.cpp` are the fields of `State`, and the
calls the logger makes to zlib and to the critical-section API are recorded,
oldest first, in `State.trace`. What `_Open` obtains from outside the logger
(the executable path, which files exist, what `gzopen` returns) is the record
`Env`, and its search loop runs on fuel.
-/

namespace Log

/-! ## Bytes and C strings -/

/-- The bytes of a C string literal (ASCII). -/
def lit (s : String) : List Nat := s.toList.map Char.toNat

/-- The content of the C string stored in a buffer: the bytes before the first
zero byte (`strlen` many of them). -/
def cstr : List Nat → List Nat
  | [] => []
  | c :: p => if c = 0 then [] else c :: cstr p

/-! ## Global state and the external calls -/

/-- A call made by the logger to a library outside of it. -/
inductive Ext where
  | gzopen (name : List Nat) (mode : List Nat)
  | gzwrite (file : Nat) (bytes : List Nat)
  | gzclose (file : Nat)
  | InitializeCriticalSection
  | DeleteCriticalSection
  deriving DecidableEq, Repr

/-- The file-scope variables of `log.cpp` (`g_gzFile` is `none` for `NULL`),
the function-static `dwCounter` of `_Open`, and the external calls made so
far. -/
structure State where
  g_gzFile : Option Nat
  g_szFileName : List Nat
  dwCounter : Nat
  trace : List Ext
  deriving DecidableEq, Repr

/-- The bytes handed to `gzwrite` by one external call. -/
def Ext.payload : Ext → List Nat
  | .gzwrite _ bytes => bytes
  | _ => []

/-- All bytes handed to `gzwrite` so far, in order. -/
def written (s : State) : List Nat := s.trace.flatMap Ext.payload

/-! ## The sink: `_Close`, `_ReOpen`, `Write` -/

/-- `static void _Close(void)` -/
def _Close (s : State) : State :=
  match s.g_gzFile with
  | some f =>
    { s with g_gzFile := none,
             trace := s.trace ++ [Ext.gzclose f, Ext.DeleteCriticalSection] }
  | none => s

/-- `static inline void _ReOpen(void)`: the body is empty. -/
def _ReOpen (s : State) : State := s

/-- `static inline void Write(const char *sBuffer, size_t dwBytesToWrite)` -/
def WriteN (sBuffer : List Nat) (dwBytesToWrite : Nat) (s : State) : State :=
  match s.g_gzFile with
  | none => s
  | some f => { s with trace := s.trace ++ [Ext.gzwrite f (sBuffer.take dwBytesToWrite)] }

/-- `static inline void Write(const char *szText)` -/
def Write (szText : List Nat) (s : State) : State :=
  WriteN szText (cstr szText).length s

/-- `static inline void Escape(const char *s)` -/
def Escape (t : List Nat) (s : State) : State := Write t s

/-- `static inline void Indent(unsigned level)` -/
def Indent : Nat → State → State
  | 0, s => s
  | level + 1, s => Indent level (Write (lit "\t") s)

/-- `static inline void NewLine(void)` -/
def NewLine (s : State) : State := Write (lit "\r\n") s

/-- `static inline void Tag(const char *name)` -/
def Tag (name : List Nat) (s : State) : State :=
  Write (lit "/>") (Write name (Write (lit "<") s))

/-- `static inline void BeginTag(const char *name)` -/
def BeginTag (name : List Nat) (s : State) : State :=
  Write (lit ">") (Write name (Write (lit "<") s))

/-- `BeginTag` with one attribute. -/
def BeginTag1 (name attr1 value1 : List Nat) (s : State) : State :=
  let s := Write (lit "<") s
  let s := Write name s
  let s := Write (lit " ") s
  let s := Write attr1 s
  let s := Write (lit "=\"") s
  let s := Escape value1 s
  Write (lit "\">") s

/-- `BeginTag` with two attributes. -/
def BeginTag2 (name attr1 value1 attr2 value2 : List Nat) (s : State) : State :=
  let s := Write (lit "<") s
  let s := Write name s
  let s := Write (lit " ") s
  let s := Write attr1 s
  let s := Write (lit "=\"") s
  let s := Escape value1 s
  let s := Write (lit "\" ") s
  let s := Write attr2 s
  let s := Write (lit "=\"") s
  let s := Escape value2 s
  Write (lit "\">") s

/-- `static inline void EndTag(const char *name)` -/
def EndTag (name : List Nat) (s : State) : State :=
  Write (lit ">") (Write name (Write (lit "</") s))

/-! ## Public operations -/

/-- `void ReOpen(void)` -/
def ReOpen (s : State) : State := _ReOpen s

/-- `void Close(void)` -/
def Close (s : State) : State :=
  _Close (NewLine (EndTag (lit "trace") s))

/-- `void Text(const char *text)` -/
def Text (text : List Nat) (s : State) : State := Escape text s

/-- `static void TextChar(char c)` -/
def TextChar (c : Nat) (s : State) : State := Text [c, 0] s

/-- The digit table `hex` of `TextHex`. -/
def hex : List Nat := lit "0123456789abcdef"

/-- The buffer `szBuffer` that `TextHex<T>` fills, `W` being `sizeof(T)`:
`2*W` digits and the terminator. -/
def TextHex.szBuffer (W value : Nat) : List Nat :=
  (List.range (2 * W)).map
      (fun i => hex.getD ((value >>> (4 * (2 * W - (i + 1)))) &&& 0xf) 0)
    ++ [0]

/-- `template<class T> void TextHex(T value)`, with `W = sizeof(T)`. -/
def TextHex (W value : Nat) (s : State) : State :=
  Text (TextHex.szBuffer W value) s

/-- The decimal numeral that `%u` prints for `n`. -/
def utoa (n : Nat) : List Nat := (Nat.toDigits 10 n).map Char.toNat

/-- The text `vsnprintf` produces for a format whose only conversions are
`%u`, each taking the next argument. -/
def vformat : List Nat → List Nat → List Nat
  | [], _ => []
  | [c], _ => [c]
  | c :: d :: fmt, args =>
    if c = 37 ∧ d = 117 then
      match args with
      | a :: args => utoa a ++ vformat fmt args
      | [] => vformat fmt []
    else c :: vformat (d :: fmt) args

/-- `void TextF(const char *format, ...)`: the formatted text is cut to the
4196-byte buffer `szBuffer`, terminator included. -/
def TextF (format : List Nat) (args : List Nat) (s : State) : State :=
  Text ((vformat (cstr format) args).take 4195 ++ [0]) s

/-- Size in bytes of the value `rdtsc()` returns (`unsigned long long`). -/
def sizeof_tsc : Nat := 8

/-- `void BeginCall(const char *function)`; `tsc` is the value `rdtsc()`
returns during the call. -/
def BeginCall (function : List Nat) (tsc : Nat) (s : State) : State :=
  let s := Indent 1 s
  let s := BeginTag1 (lit "call") (lit "name") function s
  let s := NewLine s
  let s := Indent 2 s
  let s := BeginTag (lit "starttsc") s
  let s := TextHex sizeof_tsc tsc s
  let s := EndTag (lit "starttsc") s
  NewLine s

/-- `void EndCall(void)`; `tsc` is the value `rdtsc()` returns during the
call. -/
def EndCall (tsc : Nat) (s : State) : State :=
  let s := Indent 2 s
  let s := BeginTag (lit "endtsc") s
  let s := TextHex sizeof_tsc tsc s
  let s := EndTag (lit "endtsc") s
  let s := NewLine s
  let s := Indent 1 s
  let s := EndTag (lit "call") s
  NewLine s

/-- `void BeginArg(const char *type, const char *name)` -/
def BeginArg (type name : List Nat) (s : State) : State :=
  BeginTag2 (lit "arg") (lit "type") type (lit "name") name (Indent 2 s)

/-- `void EndArg(void)` -/
def EndArg (s : State) : State := NewLine (EndTag (lit "arg") s)

/-- `void BeginReturn(const char *type)` -/
def BeginReturn (type : List Nat) (s : State) : State :=
  BeginTag1 (lit "ret") (lit "type") type (Indent 2 s)

/-- `void EndReturn(void)` -/
def EndReturn (s : State) : State := NewLine (EndTag (lit "ret") s)

/-- `void BeginElement(const char *type, const char *name)` -/
def BeginElement2 (type name : List Nat) (s : State) : State :=
  BeginTag2 (lit "elem") (lit "type") type (lit "name") name s

/-- `void BeginElement(const char *type)` -/
def BeginElement (type : List Nat) (s : State) : State :=
  BeginTag1 (lit "elem") (lit "type") type s

/-- `void EndElement(void)` -/
def EndElement (s : State) : State := EndTag (lit "elem") s

/-- `void BeginReference(const char *type, const void *addr)`; `fmtP addr` is
the content `snprintf` leaves in `saddr` for the conversion `%p`. -/
def BeginReference (fmtP : Nat → List Nat) (type : List Nat) (addr : Nat)
    (s : State) : State :=
  let saddr := fmtP addr
  BeginTag2 (lit "ref") (lit "type") type (lit "addr") saddr s

/-- `void EndReference(void)` -/
def EndReference (s : State) : State := EndTag (lit "ref") s

/-- The body of the `while` loop of `DumpString` for the byte `c`. -/
def DumpString.body (c : Nat) (s : State) : State :=
  if c = 34 then Text (lit "\\\"") s
  else if c = 92 then Text (lit "\\\\") s
  else if c ≥ 0x20 ∧ c ≤ 0x7e then TextChar c s
  else if c = 9 then Text (lit "\\t") s
  else if c = 13 then Text (lit "\\r") s
  else if c = 10 then Text (lit "&#10;") s
  else
    let octal0 := c &&& 0x7
    let octal1 := (c >>> 3) &&& 0x7
    let octal2 := (c >>> 3) &&& 0x7
    if octal2 ≠ 0 then TextF (lit "\\%u%u%u") [octal2, octal1, octal0] s
    else if octal1 ≠ 0 then TextF (lit "\\%u%u") [octal1, octal0] s
    else TextF (lit "\\%u") [octal0] s

/-- The `while((c = *p++) != 0)` loop of `DumpString`. -/
def DumpString.loop : List Nat → State → State
  | [], s => s
  | c :: p, s => if c = 0 then s else DumpString.loop p (DumpString.body c s)

/-- `void DumpString(const char *str)` -/
def DumpString (str : List Nat) (s : State) : State :=
  Text (lit "\"") (DumpString.loop str (Text (lit "\"") s))

/-- The body of the `while` loop of `DumpWString` for the wide character
`c`. -/
def DumpWString.body (c : Nat) (s : State) : State :=
  if c = 34 then Text (lit "\\\"") s
  else if c = 92 then Text (lit "\\\\") s
  else if c ≥ 0x20 ∧ c ≤ 0x7e then TextChar (c % 256) s
  else if c = 9 then Text (lit "\\t") s
  else if c = 13 then Text (lit "\\r") s
  else if c = 10 then Text (lit "&#10;") s
  else
    let octal0 := c &&& 0x7
    let octal1 := (c >>> 3) &&& 0x7
    let octal2 := (c >>> 3) &&& 0x7
    if octal2 ≠ 0 then TextF (lit "\\%u%u%u") [octal2, octal1, octal0] s
    else if octal1 ≠ 0 then TextF (lit "\\%u%u") [octal1, octal0] s
    else TextF (lit "\\%u") [octal0] s

/-- The `while((c = *p++) != 0)` loop of `DumpWString`. -/
def DumpWString.loop : List Nat → State → State
  | [], s => s
  | c :: p, s => if c = 0 then s else DumpWString.loop p (DumpWString.body c s)

/-- `void DumpWString(const wchar_t *str)` -/
def DumpWString (str : List Nat) (s : State) : State :=
  Text (lit "\"") (DumpWString.loop str (Text (lit "L\"") s))

/-- An open session that has written nothing yet, on the handle `1`. -/
def fresh : State :=
  { g_gzFile := some 1, g_szFileName := [], dwCounter := 0, trace := [] }

/-- A session that is not open. -/
def closed : State :=
  { g_gzFile := none, g_szFileName := [], dwCounter := 0, trace := [] }


/-! ## Specification-side definitions -/

/-- The lowercase hexadecimal digit character of a nibble value. -/
def hexDigit (n : Nat) : Nat := if n < 10 then 48 + n else 87 + n

/-- The value of a lowercase hexadecimal digit character. -/
def hexVal (c : Nat) : Option Nat :=
  if 48 ≤ c ∧ c ≤ 57 then some (c - 48)
  else if 97 ≤ c ∧ c ≤ 102 then some (c - 87)
  else none

/-- The hexadecimal numeral of `value` on `2*W` digits: digit `i` (0-based) is
the digit of the nibble `(value >> 4*(2W-1-i)) & 0xf`. -/
def hexText (W value : Nat) : List Nat :=
  (List.range (2 * W)).map (fun i => hexDigit ((value >>> (4 * (2 * W - 1 - i))) &&& 0xf))

/-- Reads a text as a base-16 numeral, most significant digit first. -/
def parseHex (t : List Nat) : Option Nat :=
  t.foldl (fun acc c => acc.bind (fun a => (hexVal c).map (fun d => a * 16 + d))) (some 0)

/-- The number of octal digit characters at the head of `t`, counting at most
`n` of them. -/
def octalRun : Nat → List Nat → Nat
  | 0, _ => 0
  | _ + 1, [] => 0
  | n + 1, d :: t => if 48 ≤ d ∧ d ≤ 55 then octalRun n t + 1 else 0

/-- Reads a text of octal digit characters as a base-8 numeral, most
significant digit first. -/
def octalValue (ds : List Nat) : Nat := ds.foldl (fun a d => a * 8 + (d - 48)) 0

/-- The inverse of the escape rules of the format, reading the text from the
left, `skip` being the number of characters still to pass over: `\"` is the
quote, `\\` the backslash, `\t` the tab, `\r` CR, `&#10;` LF, a backslash with
one to three octal digits the byte of that octal value, any other character
itself. -/
def unescape.go : Nat → List Nat → List Nat
  | _, [] => []
  | skip + 1, _ :: t => unescape.go skip t
  | 0, c :: t =>
    if c = 92 then
      match t with
      | [] => [92]
      | d :: _ =>
        if d = 34 then 34 :: unescape.go 1 t
        else if d = 92 then 92 :: unescape.go 1 t
        else if d = 116 then 9 :: unescape.go 1 t
        else if d = 114 then 13 :: unescape.go 1 t
        else if 48 ≤ d ∧ d ≤ 55 then
          octalValue (t.take (octalRun 3 t)) :: unescape.go (octalRun 3 t) t
        else 92 :: unescape.go 0 t
    else if c = 38 ∧ t.take 4 = [35, 49, 48, 59] then 10 :: unescape.go 4 t
    else c :: unescape.go 0 t

/-- The byte string that an escaped text stands for. -/
def unescape (t : List Nat) : List Nat := unescape.go 0 t

/-- The bytes of the rows of the escape table that are not the octal row:
quote, backslash, printable ASCII, tab, CR and LF. -/
def tableRow (c : Nat) : Prop :=
  c = 34 ∨ c = 92 ∨ (0x20 ≤ c ∧ c ≤ 0x7e) ∨ c = 9 ∨ c = 13 ∨ c = 10

instance (c : Nat) : Decidable (tableRow c) := by
  unfold tableRow
  infer_instance

/-- The markup tags of a text, in order of appearance: for every `<` the
characters from it to the next `>`, both left out. The first argument holds the
characters of the tag being read, `none` outside of a tag. -/
def tags.go : Option (List Nat) → List Nat → List (List Nat)
  | _, [] => []
  | none, c :: t => if c = 60 then tags.go (some []) t else tags.go none t
  | some acc, c :: t =>
    if c = 62 then acc :: tags.go none t else tags.go (some (acc ++ [c])) t

/-- The markup tags of a text. -/
def tags (t : List Nat) : List (List Nat) := tags.go none t

/-- The element name of an opening tag: its characters before the first
blank. -/
def tagName (tag : List Nat) : List Nat := tag.takeWhile (fun c => c ≠ 32)

/-- Runs a sequence of tags against the stack of the names of the elements
that are open, innermost first: an opening tag pushes its element name, a
closing tag `/name` needs `name` on top of the stack and pops it. The result is
the stack left at the end, `none` when a closing tag does not match. -/
def nesting : List (List Nat) → List (List Nat) → Option (List (List Nat))
  | stack, [] => some stack
  | stack, tag :: rest =>
    if tag.head? = some 47 then
      match stack with
      | top :: below => if top = tag.tail then nesting below rest else none
      | [] => none
    else nesting (tagName tag :: stack) rest

/-- The operation `f` behaves as a writer of the text `out`: it never changes
`g_gzFile`, does nothing at all on a closed session, and on an open one
appends exactly `out` to the bytes written. -/
def Emits (f : State → State) (out : List Nat) : Prop :=
  ∀ s, (f s).g_gzFile = s.g_gzFile ∧ (s.g_gzFile = none → f s = s) ∧
    (s.g_gzFile ≠ none → written (f s) = written s ++ out)

/-! ## Opening a session: `_Open`, `Open` -/

/-- What `_Open` obtains from outside the logger: the constant `PATH_MAX`,
the content of `szProcessPath` after `GetModuleFileNameA`, the set of the
names of the files that exist, which of them the process may open for reading,
and the handle that `gzopen(name, "wb")` returns (`none` for `NULL`). -/
structure Env where
  PATH_MAX : Nat
  szProcessPath : List Nat
  fileExists : List Nat → Bool
  readable : List Nat → Bool
  gzopen : List Nat → Option Nat

/-- Whether `fopen(name, "rb")` returns a file: the file exists and the process
may open it for reading. -/
def Env.fopen (env : Env) (name : List Nat) : Bool :=
  env.fileExists name && env.readable name

/-- `strrchr(s, c)` for a character `c` other than the terminator: the index
of the last occurrence of `c` in the C string `s`, `none` for `NULL`. -/
def strrchr : List Nat → Nat → Option Nat
  | [], _ => none
  | x :: p, c =>
    if x = 0 then none
    else
      match strrchr p c with
      | some i => some (i + 1)
      | none => if x = c then some 0 else none

/-- The buffer that `lpProcessName` points to in `_Open` once the extension
has been cut off: the path from just after its last backslash on (the whole
path without one), with a zero byte stored over the last `.` of that part. -/
def _Open.lpProcessName (szProcessPath : List Nat) : List Nat :=
  let lpProcessName :=
    match strrchr szProcessPath 92 with
    | some i => szProcessPath.drop (i + 1)
    | none => szProcessPath
  match strrchr lpProcessName 46 with
  | some j => lpProcessName.set j 0
  | none => lpProcessName

/-- The text that the format of `_Open` produces: `%s.%s.%u.%s.gz` when
`dwCounter` is not zero, `%s.%s.%s.gz` otherwise. -/
def _Open.formatted (lpProcessName szName : List Nat) (dwCounter : Nat)
    (szExtension : List Nat) : List Nat :=
  if dwCounter ≠ 0 then
    cstr lpProcessName ++ lit "." ++ cstr szName ++ lit "." ++ utoa dwCounter ++ lit "."
      ++ cstr szExtension ++ lit ".gz"
  else
    cstr lpProcessName ++ lit "." ++ cstr szName ++ lit "." ++ cstr szExtension
      ++ lit ".gz"

/-- The bytes that `snprintf(g_szFileName, PATH_MAX, ...)` stores in
`g_szFileName`; `snprintf` is `_snprintf` here (`WIN32`): the text and the
terminator when the text is shorter than `PATH_MAX`, the first `PATH_MAX`
characters of the text and no terminator otherwise. -/
def _Open.snprintf (PATH_MAX : Nat) (lpProcessName szName : List Nat) (dwCounter : Nat)
    (szExtension : List Nat) : List Nat :=
  let text := _Open.formatted lpProcessName szName dwCounter szExtension
  if text.length < PATH_MAX then text ++ [0] else text.take PATH_MAX

/-- How a run of the search loop of `_Open` ends: the loop is left with a
value of the counter and a file name; or `g_szFileName` is left without a
terminator, so that what `fopen` reads as the name is not defined; or the loop
is still running when the fuel is used up. -/
inductive Search where
  | found (dwCounter : Nat) (g_szFileName : List Nat)
  | unterminated (dwCounter : Nat)
  | running
  deriving DecidableEq, Repr

/-- The `for(;;)` loop of `_Open`, run for at most `fuel` iterations from the
value `dwCounter` of the 32-bit counter. The file name is the C string held by
`g_szFileName`. -/
def _Open.loop (env : Env) (lpProcessName szName szExtension : List Nat) :
    Nat → Nat → Search
  | 0, _ => Search.running
  | fuel + 1, dwCounter =>
    let g_szFileName :=
      _Open.snprintf env.PATH_MAX lpProcessName szName dwCounter szExtension
    if 0 ∈ g_szFileName then
      if env.fopen (cstr g_szFileName) then
        _Open.loop env lpProcessName szName szExtension fuel ((dwCounter + 1) % 2 ^ 32)
      else Search.found dwCounter (cstr g_szFileName)
    else Search.unterminated dwCounter

/-- `static void _Open(const char *szName, const char *szExtension)`; `none`
when the search loop is not left within `fuel` iterations or leaves
`g_szFileName` without a terminator. -/
def _Open (env : Env) (fuel : Nat) (szName szExtension : List Nat) (s : State) :
    Option State :=
  let s := _Close s
  let lpProcessName := _Open.lpProcessName env.szProcessPath
  match _Open.loop env lpProcessName szName szExtension fuel s.dwCounter with
  | Search.found dwCounter g_szFileName =>
    some { s with
      dwCounter := dwCounter
      g_szFileName := g_szFileName
      g_gzFile := env.gzopen g_szFileName
      trace := s.trace ++ [Ext.gzopen g_szFileName (lit "wb"), Ext.InitializeCriticalSection] }
  | _ => none

/-- The statements of `Open` that follow the call of `_Open`. -/
def Open.prologue (s : State) : State :=
  let s := Write (lit "<?xml version='1.0' encoding='UTF-8'?>") s
  let s := NewLine s
  let s := Write (lit "<?xml-stylesheet type='text/xsl' href='apitrace.xsl'?>") s
  let s := NewLine s
  let s := BeginTag (lit "trace") s
  NewLine s

/-- `void Open(const char *name)` -/
def Open (env : Env) (fuel : Nat) (name : List Nat) (s : State) : Option State :=
  (_Open env fuel name (lit "xml") s).map Open.prologue

/-- The state of the logger when the process starts. -/
def initial : State :=
  { g_gzFile := none, g_szFileName := [], dwCounter := 0, trace := [] }

/-- The bytes handed to `gzwrite` for the file `f` so far, in order. -/
def writtenTo (f : Nat) (s : State) : List Nat :=
  s.trace.flatMap (fun e =>
    match e with
    | .gzwrite g bytes => if g = f then bytes else []
    | _ => [])

/-- The part of a string after its last occurrence of the character `c`, the
whole string when `c` does not occur in it. -/
def afterLast (c : Nat) (p : List Nat) : List Nat :=
  (p.reverse.takeWhile (fun x => x ≠ c)).reverse

/-- The part of a string before its last occurrence of the character `c`, the
whole string when `c` does not occur in it. -/
def beforeLast (c : Nat) (p : List Nat) : List Nat :=
  if c ∈ p then (p.reverse.dropWhile (fun x => x ≠ c)).tail.reverse else p

/-- A process `C:\bin\prog.exe` in whose directory the log `prog.a.xml.gz`
exists already and can be read; `gzopen` succeeds and returns the length of the
name as the handle. -/
def demoEnv : Env where
  PATH_MAX := 260
  szProcessPath := lit "C:\\bin\\prog.exe"
  fileExists := fun n => decide (n = lit "prog.a.xml.gz")
  readable := fun _ => true
  gzopen := fun n => some n.length

/-- The process of `demoEnv` later on, when `prog.a.1.xml.gz` exists as
well. -/
def demoEnvLater : Env where
  PATH_MAX := 260
  szProcessPath := lit "C:\\bin\\prog.exe"
  fileExists := fun n => decide (n = lit "prog.a.xml.gz") || decide (n = lit "prog.a.1.xml.gz")
  readable := fun _ => true
  gzopen := fun n => some (n.length + 100)

/-- The process of `demoEnv` when the existing log `prog.a.xml.gz` cannot be
opened for reading by the process. -/
def lockedEnv : Env where
  PATH_MAX := 260
  szProcessPath := lit "C:\\bin\\prog.exe"
  fileExists := fun n => decide (n = lit "prog.a.xml.gz")
  readable := fun _ => false
  gzopen := fun n => some n.length

/-- The process of `demoEnv` with a buffer `g_szFileName` of 13 bytes, which
the 13 characters of `prog.a.xml.gz` fill, and no file in the directory. -/
def tinyEnv : Env where
  PATH_MAX := 13
  szProcessPath := lit "C:\\bin\\prog.exe"
  fileExists := fun _ => false
  readable := fun _ => true
  gzopen := fun n => some n.length

/-! ## Sequences of calls of the event API -/

/-- One call of the event API, with its arguments; for `BeginCall` and
`EndCall` also the value that `rdtsc()` returns during the call. -/
inductive Op where
  | BeginCall (function : List Nat) (tsc : Nat)
  | EndCall (tsc : Nat)
  | BeginArg (type name : List Nat)
  | EndArg
  | BeginReturn (type : List Nat)
  | EndReturn
  | BeginElement2 (type name : List Nat)
  | BeginElement (type : List Nat)
  | EndElement
  | BeginReference (type : List Nat) (addr : Nat)
  | EndReference
  | Text (text : List Nat)
  deriving DecidableEq, Repr

/-- Runs one call of the event API. -/
def Op.run (fmtP : Nat → List Nat) : Op → State → State
  | .BeginCall function tsc, s => Log.BeginCall function tsc s
  | .EndCall tsc, s => Log.EndCall tsc s
  | .BeginArg type name, s => Log.BeginArg type name s
  | .EndArg, s => Log.EndArg s
  | .BeginReturn type, s => Log.BeginReturn type s
  | .EndReturn, s => Log.EndReturn s
  | .BeginElement2 type name, s => Log.BeginElement2 type name s
  | .BeginElement type, s => Log.BeginElement type s
  | .EndElement, s => Log.EndElement s
  | .BeginReference type addr, s => Log.BeginReference fmtP type addr s
  | .EndReference, s => Log.EndReference s
  | .Text text, s => Log.Text text s

/-- Runs a sequence of calls of the event API, first call first. -/
def runOps (fmtP : Nat → List Nat) : List Op → State → State
  | [], s => s
  | op :: ops, s => runOps fmtP ops (op.run fmtP s)

/-- The C string `t` holds none of the markup characters `<`, `>` and `"`. -/
def plain (t : List Nat) : Prop := ∀ c ∈ cstr t, c ≠ 60 ∧ c ≠ 62 ∧ c ≠ 34

/-- The names, types, text bodies and address renderings passed by a call of
the event API hold no markup character. -/
def Op.plain (fmtP : Nat → List Nat) : Op → Prop
  | .BeginCall function _ => Log.plain function
  | .BeginArg type name => Log.plain type ∧ Log.plain name
  | .BeginReturn type => Log.plain type
  | .BeginElement2 type name => Log.plain type ∧ Log.plain name
  | .BeginElement type => Log.plain type
  | .BeginReference type addr => Log.plain type ∧ Log.plain (fmtP addr)
  | .Text text => Log.plain text
  | _ => True

/-- The C string `t` holds neither `<` nor `>`. -/
def angleFree (t : List Nat) : Prop := ∀ c ∈ cstr t, c ≠ 60 ∧ c ≠ 62

/-- The names, types, text bodies and address renderings passed by a call of
the event API hold neither `<` nor `>`. -/
def Op.angleFree (fmtP : Nat → List Nat) : Op → Prop
  | .BeginCall function _ => Log.angleFree function
  | .BeginArg type name => Log.angleFree type ∧ Log.angleFree name
  | .BeginReturn type => Log.angleFree type
  | .BeginElement2 type name => Log.angleFree type ∧ Log.angleFree name
  | .BeginElement type => Log.angleFree type
  | .BeginReference type addr => Log.angleFree type ∧ Log.angleFree (fmtP addr)
  | .Text text => Log.angleFree text
  | _ => True

/-- The name of the element that a call of the event API opens. -/
def Op.opens : Op → Option (List Nat)
  | .BeginCall _ _ => some (lit "call")
  | .BeginArg _ _ => some (lit "arg")
  | .BeginReturn _ => some (lit "ret")
  | .BeginElement2 _ _ => some (lit "elem")
  | .BeginElement _ => some (lit "elem")
  | .BeginReference _ _ => some (lit "ref")
  | _ => none

/-- The name of the element that a call of the event API closes. -/
def Op.closes : Op → Option (List Nat)
  | .EndCall _ => some (lit "call")
  | .EndArg => some (lit "arg")
  | .EndReturn => some (lit "ret")
  | .EndElement => some (lit "elem")
  | .EndReference => some (lit "ref")
  | _ => none

/-- The state machine of one call event, run over a sequence of calls of the
API from the stack of the elements that are open, innermost first: `BeginCall`
is allowed when nothing is open, the other `Begin` operations and `Text` inside
a call, an `End` operation when the element it closes is the innermost open
one. The result is the stack left at the end, `none` when a call of the
sequence is not allowed. -/
def callMachine : List (List Nat) → List Op → Option (List (List Nat))
  | stack, [] => some stack
  | stack, op :: ops =>
    match op.closes with
    | some name =>
      match stack with
      | top :: below => if top = name then callMachine below ops else none
      | [] => none
    | none =>
      match op.opens with
      | some name =>
        if name = lit "call" ↔ stack = [] then callMachine (name :: stack) ops else none
      | none => if stack = [] then none else callMachine stack ops

/-- The tags that a call of the event API writes. -/
def Op.tags (fmtP : Nat → List Nat) : Op → List (List Nat)
  | .BeginCall function _ =>
    [lit "call name=\"" ++ cstr function ++ lit "\"", lit "starttsc", lit "/starttsc"]
  | .EndCall _ => [lit "endtsc", lit "/endtsc", lit "/call"]
  | .BeginArg type name =>
    [lit "arg type=\"" ++ cstr type ++ lit "\" name=\"" ++ cstr name ++ lit "\""]
  | .EndArg => [lit "/arg"]
  | .BeginReturn type => [lit "ret type=\"" ++ cstr type ++ lit "\""]
  | .EndReturn => [lit "/ret"]
  | .BeginElement2 type name =>
    [lit "elem type=\"" ++ cstr type ++ lit "\" name=\"" ++ cstr name ++ lit "\""]
  | .BeginElement type => [lit "elem type=\"" ++ cstr type ++ lit "\""]
  | .EndElement => [lit "/elem"]
  | .BeginReference type addr =>
    [lit "ref type=\"" ++ cstr type ++ lit "\" addr=\"" ++ cstr (fmtP addr) ++ lit "\""]
  | .EndReference => [lit "/ref"]
  | .Text _ => []

/-- The list `l` is an interleaving of the lists `a` and `b`: it holds the
items of both, those of each list in their order. -/
inductive Interleave : List Op → List Op → List Op → Prop where
  | nil : Interleave [] [] []
  | left (x : Op) {a b l : List Op} : Interleave a b l → Interleave (x :: a) b (x :: l)
  | right (y : Op) {a b l : List Op} : Interleave a b l → Interleave a (y :: b) (y :: l)

/-- The bytes that reach the files when the codec fails on the external calls
whose position in the trace (from 0) satisfies `fails`: a `gzwrite` that fails
stores nothing. -/
def stored (fails : Nat → Bool) (s : State) : List Nat :=
  s.trace.enum.flatMap (fun p => if fails p.1 then [] else p.2.payload)

/-- The bytes that a call of the event API writes on an open session. -/
def Op.out (fmtP : Nat → List Nat) (op : Op) : List Nat := written (op.run fmtP fresh)

/-- The session that the first `Open("a")` of the process of `demoEnv` leaves:
the log `prog.a.1.xml.gz` on the handle 15, with the document prologue
written. -/
def demoSession : State :=
  Open.prologue
    { g_gzFile := some 15, g_szFileName := lit "prog.a.1.xml.gz", dwCounter := 1,
      trace := [Ext.gzopen (lit "prog.a.1.xml.gz") (lit "wb"), Ext.InitializeCriticalSection] }

/-! # Theorems -/

/-! ## Basic lemmas on C strings and on `Write` -/

theorem cstr_take (b : List Nat) : b.take (cstr b).length = cstr b := by
  induction b with
  | nil => rfl
  | cons c p ih =>
    by_cases h : c = 0
    · simp [cstr, h]
    · simp [cstr, h, ih]

theorem cstr_not_mem_zero (b : List Nat) : 0 ∉ cstr b := by
  induction b with
  | nil => simp [cstr]
  | cons c p ih =>
    by_cases h : c = 0
    · simp [cstr, h]
    · simp only [cstr, h, if_false, List.mem_cons, not_or]
      exact ⟨fun h0 => h h0.symm, ih⟩

theorem cstr_append_zero (l rest : List Nat) (h : 0 ∉ l) : cstr (l ++ 0 :: rest) = l := by
  induction l with
  | nil => simp [cstr]
  | cons c p ih =>
    have hc : c ≠ 0 := fun h0 => h (by simp [h0])
    have hp : 0 ∉ p := fun h0 => h (by simp [h0])
    simp [cstr, hc, ih hp]

theorem cstr_of_not_mem (l : List Nat) (h : 0 ∉ l) : cstr l = l := by
  induction l with
  | nil => rfl
  | cons c p ih =>
    have hc : c ≠ 0 := fun h0 => h (by simp [h0])
    have hp : 0 ∉ p := fun h0 => h (by simp [h0])
    simp [cstr, hc, ih hp]

theorem cstr_idem (b : List Nat) : cstr (cstr b) = cstr b :=
  cstr_of_not_mem _ (cstr_not_mem_zero b)

theorem written_append (s : State) (e : List Ext) :
    written { s with trace := s.trace ++ e } = written s ++ e.flatMap Ext.payload := by
  simp [written]

theorem emits_Write (b : List Nat) : Emits (Write b) (cstr b) := by
  intro s
  cases h : s.g_gzFile with
  | none => simp [Write, WriteN, h]
  | some f =>
    refine ⟨by simp [Write, WriteN, h], by simp, fun _ => ?_⟩
    simp [Write, WriteN, h, written, cstr_take, Ext.payload]

theorem emits_id : Emits (fun s => s) [] := by
  intro s; simp

theorem Emits.comp {f g : State → State} {a b : List Nat}
    (hf : Emits f a) (hg : Emits g b) : Emits (fun s => g (f s)) (a ++ b) := by
  intro s
  obtain ⟨f1, f2, f3⟩ := hf s
  obtain ⟨g1, g2, g3⟩ := hg (f s)
  refine ⟨by rw [g1, f1], fun h => ?_, fun h => ?_⟩
  · show g (f s) = s
    rw [f2 h]
    exact (hg s).2.1 h
  · show written (g (f s)) = written s ++ (a ++ b)
    rw [g3 (by rw [f1]; exact h), f3 h, List.append_assoc]

theorem Emits.closed {f : State → State} {a : List Nat} (hf : Emits f a)
    (s : State) (h : s.g_gzFile = none) : f s = s := (hf s).2.1 h

theorem Emits.appends {f : State → State} {a : List Nat} (hf : Emits f a)
    (s : State) (h : s.g_gzFile ≠ none) : written (f s) = written s ++ a := (hf s).2.2 h

theorem Emits.out_eq {f : State → State} {a : List Nat} (hf : Emits f a) :
    a = written (f fresh) := by
  have := hf.appends fresh (by simp [fresh])
  simpa [written, fresh] using this.symm

theorem emits_Escape (b : List Nat) : Emits (Escape b) (cstr b) := emits_Write b

theorem emits_Text (b : List Nat) : Emits (Text b) (cstr b) := emits_Write b

theorem emits_Indent (n : Nat) : Emits (Indent n) (List.replicate n 9) := by
  induction n with
  | zero => exact emits_id
  | succ n ih =>
    have h := (emits_Write (lit "\t")).comp ih
    have e : cstr (lit "\t") ++ List.replicate n 9 = List.replicate (n + 1) 9 := by
      simp [List.replicate_succ]; rfl
    rw [e] at h
    exact h

theorem emits_NewLine : Emits NewLine (lit "\r\n") := emits_Write _

theorem emits_BeginTag (name : List Nat) :
    Emits (BeginTag name) (lit "<" ++ cstr name ++ lit ">") :=
  ((emits_Write (lit "<")).comp (emits_Write name)).comp (emits_Write (lit ">"))

theorem emits_EndTag (name : List Nat) :
    Emits (EndTag name) (lit "</" ++ cstr name ++ lit ">") :=
  ((emits_Write (lit "</")).comp (emits_Write name)).comp (emits_Write (lit ">"))

theorem emits_BeginTag1 (name attr1 value1 : List Nat) :
    Emits (BeginTag1 name attr1 value1)
      (lit "<" ++ cstr name ++ lit " " ++ cstr attr1 ++ lit "=\"" ++ cstr value1
        ++ lit "\">") :=
  ((((((emits_Write (lit "<")).comp (emits_Write name)).comp (emits_Write (lit " "))).comp
    (emits_Write attr1)).comp (emits_Write (lit "=\""))).comp (emits_Escape value1)).comp
    (emits_Write (lit "\">"))

theorem emits_BeginTag2 (name attr1 value1 attr2 value2 : List Nat) :
    Emits (BeginTag2 name attr1 value1 attr2 value2)
      (lit "<" ++ cstr name ++ lit " " ++ cstr attr1 ++ lit "=\"" ++ cstr value1
        ++ lit "\" " ++ cstr attr2 ++ lit "=\"" ++ cstr value2 ++ lit "\">") :=
  ((((((((((emits_Write (lit "<")).comp (emits_Write name)).comp
    (emits_Write (lit " "))).comp (emits_Write attr1)).comp (emits_Write (lit "=\""))).comp
    (emits_Escape value1)).comp (emits_Write (lit "\" "))).comp (emits_Write attr2)).comp
    (emits_Write (lit "=\""))).comp (emits_Escape value2)).comp (emits_Write (lit "\">"))

theorem emits_Close_closed (s : State) (h : s.g_gzFile = none) : Close s = s := by
  have h1 := ((emits_EndTag (lit "trace")).comp emits_NewLine).closed s h
  simp only [Close, h1, _Close, h]

theorem Close_gzFile (s : State) : (Close s).g_gzFile = none := by
  have h1 := (((emits_EndTag (lit "trace")).comp emits_NewLine) s).1
  simp only [Close, _Close]
  split
  · rfl
  · assumption

theorem emits_TextChar (c : Nat) : Emits (TextChar c) (cstr [c, 0]) := emits_Text _

theorem emits_TextF (format args : List Nat) :
    Emits (TextF format args) (cstr ((vformat (cstr format) args).take 4195 ++ [0])) :=
  emits_Text _

theorem emits_TextHex (W value : Nat) :
    Emits (TextHex W value) (cstr (TextHex.szBuffer W value)) := emits_Text _

theorem emits_BeginCall (function : List Nat) (tsc : Nat) :
    Emits (BeginCall function tsc)
      (List.replicate 1 9 ++
        (lit "<" ++ cstr (lit "call") ++ lit " " ++ cstr (lit "name") ++ lit "=\""
          ++ cstr function ++ lit "\">") ++ lit "\r\n" ++ List.replicate 2 9 ++
        (lit "<" ++ cstr (lit "starttsc") ++ lit ">") ++
        cstr (TextHex.szBuffer sizeof_tsc tsc) ++
        (lit "</" ++ cstr (lit "starttsc") ++ lit ">") ++ lit "\r\n") :=
  (((((((emits_Indent 1).comp (emits_BeginTag1 _ _ _)).comp emits_NewLine).comp
    (emits_Indent 2)).comp (emits_BeginTag _)).comp (emits_TextHex _ _)).comp
    (emits_EndTag _)).comp emits_NewLine

theorem emits_EndCall (tsc : Nat) :
    Emits (EndCall tsc)
      (List.replicate 2 9 ++ (lit "<" ++ cstr (lit "endtsc") ++ lit ">") ++
        cstr (TextHex.szBuffer sizeof_tsc tsc) ++
        (lit "</" ++ cstr (lit "endtsc") ++ lit ">") ++ lit "\r\n" ++
        List.replicate 1 9 ++ (lit "</" ++ cstr (lit "call") ++ lit ">") ++ lit "\r\n") :=
  (((((((emits_Indent 2).comp (emits_BeginTag _)).comp (emits_TextHex _ _)).comp
    (emits_EndTag _)).comp emits_NewLine).comp (emits_Indent 1)).comp
    (emits_EndTag _)).comp emits_NewLine

theorem emits_BeginArg (type name : List Nat) :
    Emits (BeginArg type name)
      (List.replicate 2 9 ++
        (lit "<" ++ cstr (lit "arg") ++ lit " " ++ cstr (lit "type") ++ lit "=\""
          ++ cstr type ++ lit "\" " ++ cstr (lit "name") ++ lit "=\"" ++ cstr name
          ++ lit "\">")) :=
  (emits_Indent 2).comp (emits_BeginTag2 _ _ _ _ _)

theorem emits_EndArg :
    Emits EndArg ((lit "</" ++ cstr (lit "arg") ++ lit ">") ++ lit "\r\n") :=
  (emits_EndTag _).comp emits_NewLine

theorem emits_BeginReturn (type : List Nat) :
    Emits (BeginReturn type)
      (List.replicate 2 9 ++
        (lit "<" ++ cstr (lit "ret") ++ lit " " ++ cstr (lit "type") ++ lit "=\""
          ++ cstr type ++ lit "\">")) :=
  (emits_Indent 2).comp (emits_BeginTag1 _ _ _)

theorem emits_EndReturn :
    Emits EndReturn ((lit "</" ++ cstr (lit "ret") ++ lit ">") ++ lit "\r\n") :=
  (emits_EndTag _).comp emits_NewLine

theorem emits_BeginReference (fmtP : Nat → List Nat) (type : List Nat) (addr : Nat) :
    Emits (BeginReference fmtP type addr)
      (lit "<" ++ cstr (lit "ref") ++ lit " " ++ cstr (lit "type") ++ lit "=\""
        ++ cstr type ++ lit "\" " ++ cstr (lit "addr") ++ lit "=\"" ++ cstr (fmtP addr)
        ++ lit "\">") :=
  emits_BeginTag2 _ _ _ _ _

theorem emits_EndReference :
    Emits EndReference (lit "</" ++ cstr (lit "ref") ++ lit ">") := emits_EndTag _

theorem emits_BeginElement2 (type name : List Nat) :
    Emits (BeginElement2 type name)
      (lit "<" ++ cstr (lit "elem") ++ lit " " ++ cstr (lit "type") ++ lit "=\""
        ++ cstr type ++ lit "\" " ++ cstr (lit "name") ++ lit "=\"" ++ cstr name
        ++ lit "\">") :=
  emits_BeginTag2 _ _ _ _ _

theorem emits_BeginElement (type : List Nat) :
    Emits (BeginElement type)
      (lit "<" ++ cstr (lit "elem") ++ lit " " ++ cstr (lit "type") ++ lit "=\""
        ++ cstr type ++ lit "\">") :=
  emits_BeginTag1 _ _ _

theorem emits_EndElement :
    Emits EndElement (lit "</" ++ cstr (lit "elem") ++ lit ">") := emits_EndTag _

theorem exists_emits_body (c : Nat) : ∃ out, Emits (DumpString.body c) out := by
  unfold DumpString.body
  dsimp only
  repeat' split
  all_goals exact ⟨_, emits_Text _⟩

theorem exists_emits_wbody (c : Nat) : ∃ out, Emits (DumpWString.body c) out := by
  unfold DumpWString.body
  dsimp only
  repeat' split
  all_goals exact ⟨_, emits_Text _⟩

theorem emits_body (c : Nat) :
    Emits (DumpString.body c) (written (DumpString.body c fresh)) := by
  obtain ⟨out, h⟩ := exists_emits_body c
  have e := h.out_eq
  rw [← e]
  exact h

theorem emits_wbody (c : Nat) :
    Emits (DumpWString.body c) (written (DumpWString.body c fresh)) := by
  obtain ⟨out, h⟩ := exists_emits_wbody c
  have e := h.out_eq
  rw [← e]
  exact h

theorem emits_loop (p : List Nat) :
    Emits (DumpString.loop p)
      ((cstr p).flatMap (fun c => written (DumpString.body c fresh))) := by
  induction p with
  | nil => exact emits_id
  | cons c p ih =>
    by_cases h : c = 0
    · subst h
      exact emits_id
    · have := (emits_body c).comp ih
      intro s
      have hs := this s
      simpa [DumpString.loop, cstr, h] using hs

theorem emits_wloop (p : List Nat) :
    Emits (DumpWString.loop p)
      ((cstr p).flatMap (fun c => written (DumpWString.body c fresh))) := by
  induction p with
  | nil => exact emits_id
  | cons c p ih =>
    by_cases h : c = 0
    · subst h
      exact emits_id
    · have := (emits_wbody c).comp ih
      intro s
      have hs := this s
      simpa [DumpWString.loop, cstr, h] using hs

theorem emits_DumpString (str : List Nat) :
    Emits (DumpString str)
      (lit "\"" ++ (cstr str).flatMap (fun c => written (DumpString.body c fresh))
        ++ lit "\"") :=
  ((emits_Text (lit "\"")).comp (emits_loop str)).comp (emits_Text (lit "\""))

theorem emits_DumpWString (str : List Nat) :
    Emits (DumpWString str)
      (lit "L\"" ++ (cstr str).flatMap (fun c => written (DumpWString.body c fresh))
        ++ lit "\"") :=
  ((emits_Text (lit "L\"")).comp (emits_wloop str)).comp (emits_Text (lit "\""))

/-! ## Hexadecimal encoding -/

theorem hex_getD_eq : ∀ k < 16, hex.getD k 0 = hexDigit k := by decide

theorem hexDigit_ne_zero (n : Nat) : hexDigit n ≠ 0 := by
  unfold hexDigit
  split <;> omega

theorem hexDigit_mem : ∀ k < 16, hexDigit k ∈ lit "0123456789abcdef" := by decide

theorem and_15_lt (x : Nat) : x &&& 0xf < 16 := by
  have : x &&& 0xf = x % 16 := Nat.and_pow_two_sub_one_eq_mod x 4
  omega

theorem szBuffer_eq (W value : Nat) : TextHex.szBuffer W value = hexText W value ++ [0] := by
  unfold TextHex.szBuffer hexText
  congr 1
  apply List.map_congr_left
  intro i _
  rw [hex_getD_eq _ (and_15_lt _)]
  have e : 2 * W - (i + 1) = 2 * W - 1 - i := by omega
  rw [e]

theorem zero_not_mem_hexText (W value : Nat) : 0 ∉ hexText W value := by
  unfold hexText
  intro h
  obtain ⟨i, _, hi⟩ := List.mem_map.1 h
  exact hexDigit_ne_zero _ hi

theorem cstr_szBuffer (W value : Nat) : cstr (TextHex.szBuffer W value) = hexText W value := by
  rw [szBuffer_eq]
  exact cstr_append_zero _ [] (zero_not_mem_hexText W value)

theorem emits_TextHex_hexText (W value : Nat) : Emits (TextHex W value) (hexText W value) := by
  have h := emits_TextHex W value
  rwa [cstr_szBuffer] at h

theorem parseHex_append_one (l : List Nat) (c : Nat) :
    parseHex (l ++ [c]) = (parseHex l).bind (fun a => (hexVal c).map (fun d => a * 16 + d)) := by
  simp [parseHex, List.foldl_append]

theorem hexVal_hexDigit : ∀ k < 16, hexVal (hexDigit k) = some k := by decide

theorem hexText_succ (n value : Nat) :
    (List.range (n + 1)).map (fun i => hexDigit ((value >>> (4 * (n + 1 - 1 - i))) &&& 0xf))
      = (List.range n).map (fun i => hexDigit (((value >>> 4) >>> (4 * (n - 1 - i))) &&& 0xf))
        ++ [hexDigit (value &&& 0xf)] := by
  rw [List.range_succ, List.map_append]
  congr 1
  · apply List.map_congr_left
    intro i hi
    have hi : i < n := List.mem_range.1 hi
    rw [← Nat.shiftRight_add]
    have e : 4 + 4 * (n - 1 - i) = 4 * (n + 1 - 1 - i) := by omega
    rw [e]
  · simp

theorem parseHex_digits (n value : Nat) :
    parseHex ((List.range n).map
      (fun i => hexDigit ((value >>> (4 * (n - 1 - i))) &&& 0xf))) = some (value % 16 ^ n) := by
  induction n generalizing value with
  | zero => simp [parseHex, Nat.mod_one]
  | succ n ih =>
    rw [hexText_succ, parseHex_append_one, ih]
    have h15 : value &&& 0xf = value % 16 := Nat.and_pow_two_sub_one_eq_mod value 4
    rw [h15, hexVal_hexDigit _ (Nat.mod_lt _ (by norm_num))]
    simp only [Option.some_bind, Option.map_some', Option.some.injEq]
    have e1 : value >>> 4 = value / 16 := by
      rw [Nat.shiftRight_eq_div_pow]
    have e2 : (16 : Nat) ^ (n + 1) = 16 * 16 ^ n := by ring
    rw [e1, e2, Nat.mod_mul]
    ring

theorem parseHex_hexText (W value : Nat) :
    parseHex (hexText W value) = some (value % 2 ^ (8 * W)) := by
  have h := parseHex_digits (2 * W) value
  have e : (16 : Nat) ^ (2 * W) = 2 ^ (8 * W) := by
    rw [show (16 : Nat) = 2 ^ 4 by norm_num, ← pow_mul]
    congr 1
    ring
  rw [e] at h
  exact h

/-! ## Claims on the hexadecimal encoder -/

/-- C6 (hex encoding format): on an open session `TextHex`, for a value of
byte width `W`, appends exactly `2*W` characters, all of them among
`0123456789abcdef`, the `i`-th one being the digit of the nibble
`(value >> 4*(2W-1-i)) & 0xf`: most significant nibble first, zero padded,
nothing before, between or after the digits. -/
theorem TextHex_format (W value : Nat) (s : State) (h : s.g_gzFile ≠ none) :
    written (TextHex W value s) = written s ++ hexText W value ∧
    (hexText W value).length = 2 * W ∧
    (∀ c ∈ hexText W value, c ∈ lit "0123456789abcdef") ∧
    (∀ i, i < 2 * W →
      (hexText W value)[i]? = some (hexDigit ((value >>> (4 * (2 * W - 1 - i))) &&& 0xf))) := by
  refine ⟨(emits_TextHex_hexText W value).appends s h, by simp [hexText], ?_, ?_⟩
  · intro c hc
    obtain ⟨i, _, rfl⟩ := List.mem_map.1 hc
    exact hexDigit_mem _ (and_15_lt _)
  · intro i hi
    simp [hexText, List.getElem?_map, List.getElem?_range hi]

/-- Witness of C6: the 32-bit value `0x1a2b3c4f` on a fresh open session. -/
theorem TextHex_format_witness :
    fresh.g_gzFile ≠ none ∧ written (TextHex 4 0x1a2b3c4f fresh) = lit "1a2b3c4f" :=
  ⟨by decide, by
    rw [(TextHex_format 4 0x1a2b3c4f fresh (by decide)).1]
    decide⟩

/-- C7 (hex round trip): for a value that fits the byte width `W`, reading the
text `TextHex` appended as a base-16 numeral, most significant digit first,
gives the value back; hence two values of that width with the same text are
equal. -/
theorem TextHex_roundtrip (W value : Nat) (s : State) (h : s.g_gzFile ≠ none)
    (hv : value < 2 ^ (8 * W)) :
    parseHex ((written (TextHex W value s)).drop (written s).length) = some value ∧
    (∀ v, v < 2 ^ (8 * W) →
      written (TextHex W v s) = written (TextHex W value s) → v = value) := by
  have key : ∀ v, v < 2 ^ (8 * W) →
      parseHex ((written (TextHex W v s)).drop (written s).length) = some v := by
    intro v hlt
    rw [(emits_TextHex_hexText W v).appends s h, List.drop_left, parseHex_hexText,
      Nat.mod_eq_of_lt hlt]
  refine ⟨key value hv, fun v hlt e => ?_⟩
  have h1 := key v hlt
  rw [e, key value hv] at h1
  exact (Option.some.inj h1).symm

/-- Witness of C7: the 16-bit value `0xbeef` on a fresh open session. -/
theorem TextHex_roundtrip_witness :
    fresh.g_gzFile ≠ none ∧ 0xbeef < 2 ^ (8 * 2) ∧
    parseHex ((written (TextHex 2 0xbeef fresh)).drop (written fresh).length) = some 0xbeef :=
  ⟨by decide, by decide, (TextHex_roundtrip 2 0xbeef fresh (by decide) (by decide)).1⟩

/-! ## Claims on the session state and the call events -/

/-- C8 (no-op while closed): when `g_gzFile` is `NULL`, each of `Close`,
`ReOpen`, `Text`, `BeginCall`, `EndCall`, `BeginArg`, `EndArg`, `BeginReturn`,
`EndReturn`, both `BeginElement`, `EndElement`, `BeginReference`,
`EndReference`, `DumpString` and `DumpWString` returns the state unchanged:
no external call is made, so no byte is written, and the session stays closed.
Moreover `Close` always leaves the session closed and is idempotent. -/
theorem closed_session_noop (s : State) (h : s.g_gzFile = none) :
    Close s = s ∧ ReOpen s = s ∧ (∀ text, Text text s = s) ∧
    (∀ function tsc, BeginCall function tsc s = s) ∧ (∀ tsc, EndCall tsc s = s) ∧
    (∀ type name, BeginArg type name s = s) ∧ EndArg s = s ∧
    (∀ type, BeginReturn type s = s) ∧ EndReturn s = s ∧
    (∀ type name, BeginElement2 type name s = s) ∧ (∀ type, BeginElement type s = s) ∧
    EndElement s = s ∧
    (∀ fmtP type addr, BeginReference fmtP type addr s = s) ∧ EndReference s = s ∧
    (∀ str, DumpString str s = s) ∧ (∀ str, DumpWString str s = s) ∧
    (∀ t : State, (Close t).g_gzFile = none ∧ Close (Close t) = Close t) :=
  ⟨emits_Close_closed s h, rfl, fun text => (emits_Text text).closed s h,
    fun function tsc => (emits_BeginCall function tsc).closed s h,
    fun tsc => (emits_EndCall tsc).closed s h,
    fun type name => (emits_BeginArg type name).closed s h,
    emits_EndArg.closed s h,
    fun type => (emits_BeginReturn type).closed s h,
    emits_EndReturn.closed s h,
    fun type name => (emits_BeginElement2 type name).closed s h,
    fun type => (emits_BeginElement type).closed s h,
    emits_EndElement.closed s h,
    fun fmtP type addr => (emits_BeginReference fmtP type addr).closed s h,
    emits_EndReference.closed s h,
    fun str => (emits_DumpString str).closed s h,
    fun str => (emits_DumpWString str).closed s h,
    fun t => ⟨Close_gzFile t, emits_Close_closed _ (Close_gzFile t)⟩⟩

/-- Witness of C8: `Close` on the closed session `closed`. -/
theorem closed_session_noop_witness :
    closed.g_gzFile = none ∧ Close closed = closed :=
  ⟨rfl, (closed_session_noop closed rfl).1⟩

theorem tags_go_none_append (l r : List Nat) (h : ∀ c ∈ l, c ≠ 60) :
    tags.go none (l ++ r) = tags.go none r := by
  induction l with
  | nil => rfl
  | cons c l ih =>
    have hc : c ≠ 60 := h c (by simp)
    have hl : ∀ x ∈ l, x ≠ 60 := fun x hx => h x (List.mem_cons_of_mem c hx)
    simp [tags.go, hc, ih hl]

theorem tags_go_some_append (acc l r : List Nat) (h : ∀ c ∈ l, c ≠ 62) :
    tags.go (some acc) (l ++ r) = tags.go (some (acc ++ l)) r := by
  induction l generalizing acc with
  | nil => simp
  | cons c l ih =>
    have hc : c ≠ 62 := h c (by simp)
    have hl : ∀ x ∈ l, x ≠ 62 := fun x hx => h x (List.mem_cons_of_mem c hx)
    simp [tags.go, hc, ih _ hl]

theorem hexText_no_lt (W value : Nat) : ∀ c ∈ hexText W value, c ≠ 60 := by
  intro c hc
  obtain ⟨i, _, rfl⟩ := List.mem_map.1 hc
  unfold hexDigit
  split <;> omega

theorem tags_call_open (r : List Nat) :
    tags.go none (lit "\t<call name=\"" ++ r) = tags.go (some (lit "call name=\"")) r := rfl

theorem tags_call_starttsc (acc r : List Nat) :
    tags.go (some acc) (lit "\">\r\n" ++ (lit "\t\t<starttsc>" ++ r)) =
      (acc ++ lit "\"") :: lit "starttsc" :: tags.go none r := rfl

theorem tags_call_endtsc (r : List Nat) :
    tags.go none (lit "</starttsc>\r\n" ++ (lit "\t\t<endtsc>" ++ r)) =
      lit "/starttsc" :: lit "endtsc" :: tags.go none r := rfl

theorem tags_call_close :
    tags.go none (lit "</endtsc>\r\n" ++ lit "\t</call>\r\n") = [lit "/endtsc", lit "/call"] :=
  rfl

/-- C9 (empty call event): on an open session, for a function name `X` (the
content of the C string `function`) free of the markup characters `<`, `>` and
`"`, `BeginCall(X)` with the cycle counter at `t0`, immediately followed by
`EndCall()` with the counter at `t1`, appends exactly one line with the opening
tag `<call name="X">`, one line with the element `<starttsc>hex(t0)</starttsc>`,
one line with the element `<endtsc>hex(t1)</endtsc>` and one line with the
closing tag `</call>` (`hex` is the 16-digit text of the 64-bit counter). The
tags appended are these six, in this order, and they are balanced: read against
an empty stack of open elements they leave it empty. -/
theorem empty_call_event (function : List Nat) (t0 t1 : Nat) (s : State)
    (h : s.g_gzFile ≠ none)
    (hm : ∀ c ∈ cstr function, c ≠ 60 ∧ c ≠ 62 ∧ c ≠ 34) :
    written (EndCall t1 (BeginCall function t0 s)) =
      written s ++ lit "\t<call name=\"" ++ cstr function ++ lit "\">\r\n"
        ++ lit "\t\t<starttsc>" ++ hexText 8 t0 ++ lit "</starttsc>\r\n"
        ++ lit "\t\t<endtsc>" ++ hexText 8 t1 ++ lit "</endtsc>\r\n"
        ++ lit "\t</call>\r\n" ∧
    tags ((written (EndCall t1 (BeginCall function t0 s))).drop (written s).length) =
      [lit "call name=\"" ++ cstr function ++ lit "\"", lit "starttsc", lit "/starttsc",
        lit "endtsc", lit "/endtsc", lit "/call"] ∧
    nesting [] (tags ((written (EndCall t1 (BeginCall function t0 s))).drop
      (written s).length)) = some [] := by
  have bytes : written (EndCall t1 (BeginCall function t0 s)) =
      written s ++ (lit "\t<call name=\"" ++ (cstr function ++ (lit "\">\r\n"
        ++ (lit "\t\t<starttsc>" ++ (hexText 8 t0 ++ (lit "</starttsc>\r\n"
        ++ (lit "\t\t<endtsc>" ++ (hexText 8 t1 ++ (lit "</endtsc>\r\n"
        ++ lit "\t</call>\r\n"))))))))) := by
    rw [((emits_BeginCall function t0).comp (emits_EndCall t1)).appends s h]
    simp only [cstr_szBuffer, sizeof_tsc]
    simp [lit, cstr]
  have hgt : ∀ c ∈ cstr function, c ≠ 62 := fun c hc => (hm c hc).2.1
  have toks : tags ((written (EndCall t1 (BeginCall function t0 s))).drop (written s).length) =
      [lit "call name=\"" ++ cstr function ++ lit "\"", lit "starttsc", lit "/starttsc",
        lit "endtsc", lit "/endtsc", lit "/call"] := by
    rw [bytes, List.drop_left, tags, tags_call_open, tags_go_some_append _ _ _ hgt,
      tags_call_starttsc, tags_go_none_append _ _ (hexText_no_lt 8 t0), tags_call_endtsc,
      tags_go_none_append _ _ (hexText_no_lt 8 t1), tags_call_close]
  refine ⟨?_, toks, ?_⟩
  · rw [bytes]
    simp only [List.append_assoc]
  · rw [toks]
    rfl

/-- Witness of C9: the call `glEnd` with counter values 5 and `0x1234` on a
fresh open session. -/
theorem empty_call_event_witness :
    fresh.g_gzFile ≠ none ∧ (∀ c ∈ cstr (lit "glEnd"), c ≠ 60 ∧ c ≠ 62 ∧ c ≠ 34) ∧
    written (EndCall 0x1234 (BeginCall (lit "glEnd") 5 fresh)) =
      lit ("\t<call name=\"glEnd\">\r\n\t\t<starttsc>0000000000000005</starttsc>\r\n" ++
        "\t\t<endtsc>0000000000001234</endtsc>\r\n\t</call>\r\n") :=
  ⟨by decide, by decide, by
    rw [(empty_call_event (lit "glEnd") 5 0x1234 fresh (by decide) (by decide)).1]
    decide⟩

/-- C10 (reference event): on an open session, `BeginReference(T, a)` followed
by `EndReference()` appends exactly `<ref type="T" addr="R"></ref>`, the type
attribute first, where `T` is the content of the C string `type` and `R` the
content of the buffer in which `snprintf` rendered `a` with `%p`. -/
theorem reference_event (fmtP : Nat → List Nat) (type : List Nat) (addr : Nat) (s : State)
    (h : s.g_gzFile ≠ none) :
    written (EndReference (BeginReference fmtP type addr s)) =
      written s ++ lit "<ref type=\"" ++ cstr type ++ lit "\" addr=\"" ++ cstr (fmtP addr)
        ++ lit "\"></ref>" := by
  rw [((emits_BeginReference fmtP type addr).comp emits_EndReference).appends s h]
  simp [lit, cstr]

/-- Witness of C10: the type `Foo*` and an address rendered as `0012FF7C`. -/
theorem reference_event_witness :
    fresh.g_gzFile ≠ none ∧
    written (EndReference (BeginReference (fun _ => lit "0012FF7C") (lit "Foo*") 1244028 fresh))
      = lit "<ref type=\"Foo*\" addr=\"0012FF7C\"></ref>" :=
  ⟨by decide, by
    rw [reference_event (fun _ => lit "0012FF7C") (lit "Foo*") 1244028 fresh (by decide)]
    decide⟩

/-! ## Claims on the narrow string escaper -/

theorem body_printable (c : Nat) (hlo : 0x20 ≤ c) (hhi : c ≤ 0x7e) (hq : c ≠ 34)
    (hb : c ≠ 92) : written (DumpString.body c fresh) = [c] := by
  have h0 : c ≠ 0 := by omega
  simp [DumpString.body, hq, hb, hlo, hhi, TextChar, Text, Escape, Write, WriteN, fresh,
    written, cstr, h0, Ext.payload]

/-- C4 (escape table, non-octal rows): on an open session the loop body of
`DumpString` appends, for the byte `c`, the two characters `\"` when `c` is the
double quote, `\\` when it is the backslash, the byte `c` itself when it is
another printable ASCII byte `0x20..0x7E`, `\t` when it is the tab, `\r` when it
is CR, and the five characters `&#10;` when it is LF. -/
theorem escape_table_rows (c : Nat) (s : State) (h : s.g_gzFile ≠ none) :
    (c = 34 → written (DumpString.body c s) = written s ++ lit "\\\"") ∧
    (c = 92 → written (DumpString.body c s) = written s ++ lit "\\\\") ∧
    (0x20 ≤ c ∧ c ≤ 0x7e ∧ c ≠ 34 ∧ c ≠ 92 →
      written (DumpString.body c s) = written s ++ [c]) ∧
    (c = 9 → written (DumpString.body c s) = written s ++ lit "\\t") ∧
    (c = 13 → written (DumpString.body c s) = written s ++ lit "\\r") ∧
    (c = 10 → written (DumpString.body c s) = written s ++ lit "&#10;") := by
  have key := (emits_body c).appends s h
  refine ⟨?_, ?_, ?_, ?_, ?_, ?_⟩
  · rintro rfl; rw [key]; rfl
  · rintro rfl; rw [key]; rfl
  · rintro ⟨hlo, hhi, hq, hb⟩; rw [key, body_printable c hlo hhi hq hb]
  · rintro rfl; rw [key]; rfl
  · rintro rfl; rw [key]; rfl
  · rintro rfl; rw [key]; rfl

/-- Witness of C4: the quote, the letter `A` and the line feed on a fresh open
session. -/
theorem escape_table_rows_witness :
    fresh.g_gzFile ≠ none ∧
    written (DumpString.body 34 fresh) = written fresh ++ lit "\\\"" ∧
    written (DumpString.body 65 fresh) = written fresh ++ [65] ∧
    written (DumpString.body 10 fresh) = written fresh ++ lit "&#10;" :=
  ⟨by decide, (escape_table_rows 34 fresh (by decide)).1 rfl,
    (escape_table_rows 65 fresh (by decide)).2.2.1 (by decide),
    (escape_table_rows 10 fresh (by decide)).2.2.2.2.2 rfl⟩

/-- C1 (per-byte round trip) fails on the code: the byte `0x80` is written as
`\0`, which the escape rules read back as the byte 0, and the bytes 8 and 136
are both written as `\110`. -/
theorem byte_roundtrip_fails :
    written (DumpString.body 128 fresh) = lit "\\0" ∧
    unescape (written (DumpString.body 128 fresh)) = [0] ∧
    written (DumpString.body 8 fresh) = lit "\\110" ∧
    written (DumpString.body 136 fresh) = lit "\\110" := by
  decide

/-- C3 (octal escape value) fails on the code: for the byte 8 the digits
written after the backslash are `110`, which read in base 8 are 72, and for
the byte `0xC0` the only digit written is `0`; the digit of bits 6-7 is never
computed, bits 3-5 are used in its place. -/
theorem octal_value_fails :
    written (DumpString.body 8 fresh) = 92 :: lit "110" ∧ octalValue (lit "110") = 72 ∧
    written (DumpString.body 192 fresh) = 92 :: lit "0" ∧ octalValue (lit "0") = 0 := by
  decide

/-! ## Injectivity of `DumpString` on the non-octal rows -/

theorem row_text (a : Nat) (h : tableRow a) :
    (0x20 ≤ a ∧ a ≤ 0x7e ∧ a ≠ 34 ∧ a ≠ 92 ∧ written (DumpString.body a fresh) = [a]) ∨
    (a = 34 ∧ written (DumpString.body a fresh) = [92, 34]) ∨
    (a = 92 ∧ written (DumpString.body a fresh) = [92, 92]) ∨
    (a = 9 ∧ written (DumpString.body a fresh) = [92, 116]) ∨
    (a = 13 ∧ written (DumpString.body a fresh) = [92, 114]) ∨
    (a = 10 ∧ written (DumpString.body a fresh) = [38, 35, 49, 48, 59]) := by
  by_cases hq : a = 34
  · subst hq; exact Or.inr (Or.inl ⟨rfl, rfl⟩)
  by_cases hb : a = 92
  · subst hb; exact Or.inr (Or.inr (Or.inl ⟨rfl, rfl⟩))
  rcases h with h | h | h | h | h | h
  · exact absurd h hq
  · exact absurd h hb
  · exact Or.inl ⟨h.1, h.2, hq, hb, body_printable a h.1 h.2 hq hb⟩
  · subst h; exact Or.inr (Or.inr (Or.inr (Or.inl ⟨rfl, rfl⟩)))
  · subst h; exact Or.inr (Or.inr (Or.inr (Or.inr (Or.inl ⟨rfl, rfl⟩))))
  · subst h; exact Or.inr (Or.inr (Or.inr (Or.inr (Or.inr ⟨rfl, rfl⟩))))

theorem head_plain (s : List Nat) (d : Nat) (r : List Nat) (hrow : ∀ c ∈ s, tableRow c)
    (h92 : d ≠ 92) (h38 : d ≠ 38)
    (e : s.flatMap (fun c => written (DumpString.body c fresh)) = d :: r) :
    ∃ t, s = d :: t ∧ r = t.flatMap (fun c => written (DumpString.body c fresh)) := by
  cases s with
  | nil => simp at e
  | cons a t =>
    rw [List.flatMap_cons] at e
    rcases row_text a (hrow a (by simp)) with h | h | h | h | h | h
    · rw [h.2.2.2.2] at e
      simp only [List.singleton_append, List.cons.injEq] at e
      exact ⟨t, by rw [e.1], e.2.symm⟩
    all_goals
      rw [h.2] at e
      simp only [List.cons_append, List.cons.injEq] at e
      omega

theorem rows_tail {a : Nat} {t : List Nat} (h : ∀ c ∈ a :: t, tableRow c) :
    ∀ c ∈ t, tableRow c := fun c hc => h c (List.mem_cons_of_mem a hc)

theorem no_entity_after_amp (t : List Nat) (hrow : ∀ c ∈ t, tableRow c)
    (e : (t.flatMap (fun c => written (DumpString.body c fresh))).take 4 = [35, 49, 48, 59]) :
    [38, 35, 49, 48, 59] <:+: 38 :: t := by
  generalize hF : t.flatMap (fun c => written (DumpString.body c fresh)) = F at e
  rcases F with _ | ⟨x1, _ | ⟨x2, _ | ⟨x3, _ | ⟨x4, r⟩⟩⟩⟩ <;>
    simp only [List.take, List.cons.injEq, reduceCtorEq, and_false, false_and] at e
  obtain ⟨rfl, rfl, rfl, rfl, -⟩ := e
  obtain ⟨t1, rfl, h1⟩ := head_plain t 35 _ hrow (by decide) (by decide) hF
  obtain ⟨t2, rfl, h2⟩ := head_plain t1 49 _ (rows_tail hrow) (by decide) (by decide) h1.symm
  obtain ⟨t3, rfl, h3⟩ :=
    head_plain t2 48 _ (rows_tail (rows_tail hrow)) (by decide) (by decide) h2.symm
  obtain ⟨t4, rfl, -⟩ :=
    head_plain t3 59 _ (rows_tail (rows_tail (rows_tail hrow))) (by decide) (by decide) h3.symm
  exact ⟨[], t4, by simp⟩

theorem unescape_rows (s : List Nat) (hrow : ∀ c ∈ s, tableRow c)
    (hno : ¬ [38, 35, 49, 48, 59] <:+: s) :
    unescape (s.flatMap (fun c => written (DumpString.body c fresh))) = s := by
  unfold unescape
  induction s with
  | nil => rfl
  | cons a t ih =>
    have ht := ih (rows_tail hrow) (fun h => hno (List.infix_cons h))
    rw [List.flatMap_cons]
    rcases row_text a (hrow a (by simp)) with h | h | h | h | h | h
    · obtain ⟨-, -, -, hb, ha⟩ := h
      rw [ha]
      have hamp : ¬ (a = 38 ∧
          (t.flatMap (fun c => written (DumpString.body c fresh))).take 4
            = [35, 49, 48, 59]) := by
        rintro ⟨rfl, e⟩
        exact hno (no_entity_after_amp t (rows_tail hrow) e)
      rw [List.singleton_append]
      simp only [unescape.go, hb, if_false, hamp, ht]
    all_goals
      obtain ⟨rfl, ha⟩ := h
      rw [ha]
      simp [unescape.go, ht]

theorem rows_no_zero (s : List Nat) (hrow : ∀ c ∈ s, tableRow c) : 0 ∉ s := by
  intro h
  have := hrow 0 h
  simp [tableRow] at this

/-- C2, the claim as stated fails: the one-byte string LF and the five-byte
string `&#10;` are distinct, free of zero bytes, and `DumpString` writes the
same bytes for both. -/
theorem DumpString_not_injective :
    0 ∉ [10] ∧ 0 ∉ lit "&#10;" ∧ [10] ≠ lit "&#10;" ∧
    written (DumpString [10] fresh) = written (DumpString (lit "&#10;") fresh) := by
  decide

/-- C2 as amended: on an open session `DumpString` is injective on the byte
strings made of the bytes of the non-octal rows of the escape table (quote,
backslash, printable ASCII, tab, CR, LF) that do not contain the five
characters `&#10;` in a row: for two distinct such strings the bytes written
differ. -/
theorem DumpString_injective_rows (s1 s2 : List Nat) (st : State) (h : st.g_gzFile ≠ none)
    (h1 : ∀ c ∈ s1, tableRow c) (h2 : ∀ c ∈ s2, tableRow c)
    (n1 : ¬ lit "&#10;" <:+: s1) (n2 : ¬ lit "&#10;" <:+: s2) (hne : s1 ≠ s2) :
    written (DumpString s1 st) ≠ written (DumpString s2 st) := by
  intro e
  rw [(emits_DumpString s1).appends st h, (emits_DumpString s2).appends st h,
    cstr_of_not_mem _ (rows_no_zero s1 h1), cstr_of_not_mem _ (rows_no_zero s2 h2)] at e
  have e1 := List.append_cancel_left (List.append_cancel_right (List.append_cancel_left e))
  have r1 := unescape_rows s1 h1 n1
  have r2 := unescape_rows s2 h2 n2
  rw [e1, r2] at r1
  exact hne r1.symm

/-- Witness of C2 as amended: the strings `a"b` and `a\b` followed by a line
feed, on a fresh open session. -/
theorem DumpString_injective_rows_witness :
    fresh.g_gzFile ≠ none ∧ (∀ c ∈ lit "a\"b", tableRow c) ∧
    (∀ c ∈ lit "a\\b\n", tableRow c) ∧ ¬ lit "&#10;" <:+: lit "a\"b" ∧
    ¬ lit "&#10;" <:+: lit "a\\b\n" ∧ lit "a\"b" ≠ lit "a\\b\n" ∧
    written (DumpString (lit "a\"b") fresh) ≠ written (DumpString (lit "a\\b\n") fresh) :=
  ⟨by decide, by decide, by decide, by decide, by decide, by decide,
    DumpString_injective_rows (lit "a\"b") (lit "a\\b\n") fresh (by decide) (by decide)
      (by decide) (by decide) (by decide) (by decide)⟩

/-! ## The base name of the output file -/

theorem strrchr_none (s : List Nat) (c : Nat) (h : strrchr s c = none) : c ∉ cstr s := by
  induction s with
  | nil => simp [cstr]
  | cons x p ih =>
    by_cases hx : x = 0
    · simp [cstr, hx]
    · simp only [strrchr, hx, if_false] at h
      cases hp : strrchr p c with
      | some i => simp [hp] at h
      | none =>
        simp only [hp] at h
        by_cases hc : x = c
        · simp [hc] at h
        · simp only [cstr, hx, if_false, List.mem_cons, not_or]
          exact ⟨fun e => hc e.symm, ih hp⟩

theorem strrchr_some (s : List Nat) (c i : Nat) (h : strrchr s c = some i) :
    ∃ a b, s = a ++ c :: b ∧ a.length = i ∧ 0 ∉ a ∧ c ∉ cstr b := by
  induction s generalizing i with
  | nil => simp [strrchr] at h
  | cons x p ih =>
    by_cases hx : x = 0
    · simp [strrchr, hx] at h
    · simp only [strrchr, hx, if_false] at h
      cases hp : strrchr p c with
      | some k =>
        simp only [hp, Option.some.injEq] at h
        obtain ⟨a, b, rfl, hlen, h0, hc⟩ := ih k hp
        refine ⟨x :: a, b, rfl, by simp [hlen, h], ?_, hc⟩
        simp only [List.mem_cons, not_or]
        exact ⟨fun e => hx e.symm, h0⟩
      | none =>
        simp only [hp] at h
        by_cases hc : x = c
        · simp only [hc, if_true, Option.some.injEq] at h
          exact ⟨[], p, by simp [hc], by simp [h], by simp, strrchr_none p c hp⟩
        · simp [hc] at h

theorem cstr_append_of_not_mem (a b : List Nat) (h : 0 ∉ a) : cstr (a ++ b) = a ++ cstr b := by
  induction a with
  | nil => rfl
  | cons x a ih =>
    have hx : x ≠ 0 := fun e => h (by simp [e])
    have ha : 0 ∉ a := fun e => h (by simp [e])
    simp [cstr, hx, ih ha]

theorem takeWhile_ne_append (c : Nat) (l r : List Nat) (h : c ∉ l) :
    (l ++ c :: r).takeWhile (fun x => x ≠ c) = l := by
  induction l with
  | nil => simp
  | cons x l ih =>
    have hx : x ≠ c := fun e => h (by simp [e])
    have hl : c ∉ l := fun e => h (by simp [e])
    rw [List.cons_append, List.takeWhile_cons_of_pos (by simpa using hx), ih hl]

theorem takeWhile_ne_all (c : Nat) (l : List Nat) (h : c ∉ l) :
    l.takeWhile (fun x => x ≠ c) = l := by
  induction l with
  | nil => simp
  | cons x l ih =>
    have hx : x ≠ c := fun e => h (by simp [e])
    have hl : c ∉ l := fun e => h (by simp [e])
    rw [List.takeWhile_cons_of_pos (by simpa using hx), ih hl]

theorem dropWhile_ne_append (c : Nat) (l r : List Nat) (h : c ∉ l) :
    (l ++ c :: r).dropWhile (fun x => x ≠ c) = c :: r := by
  induction l with
  | nil => simp
  | cons x l ih =>
    have hx : x ≠ c := fun e => h (by simp [e])
    have hl : c ∉ l := fun e => h (by simp [e])
    rw [List.cons_append, List.dropWhile_cons_of_pos (by simpa using hx), ih hl]

theorem afterLast_split (c : Nat) (a b : List Nat) (h : c ∉ b) :
    afterLast c (a ++ c :: b) = b := by
  unfold afterLast
  rw [List.reverse_append, List.reverse_cons, List.append_assoc, List.singleton_append,
    takeWhile_ne_append c _ _ (by simpa using h), List.reverse_reverse]

theorem afterLast_none (c : Nat) (p : List Nat) (h : c ∉ p) : afterLast c p = p := by
  unfold afterLast
  rw [takeWhile_ne_all c _ (by simpa using h), List.reverse_reverse]

theorem beforeLast_split (c : Nat) (a b : List Nat) (h : c ∉ b) :
    beforeLast c (a ++ c :: b) = a := by
  unfold beforeLast
  rw [if_pos (by simp), List.reverse_append, List.reverse_cons, List.append_assoc,
    List.singleton_append, dropWhile_ne_append c _ _ (by simpa using h), List.tail_cons,
    List.reverse_reverse]

theorem beforeLast_none (c : Nat) (p : List Nat) (h : c ∉ p) : beforeLast c p = p := by
  unfold beforeLast
  rw [if_neg h]

theorem afterLast_not_mem (c : Nat) (p : List Nat) : c ∉ afterLast c p := by
  unfold afterLast
  intro h
  have h2 := List.mem_takeWhile_imp (List.mem_reverse.1 h)
  simp at h2

theorem beforeLast_subset (c x : Nat) (p : List Nat) (h : x ∈ beforeLast c p) : x ∈ p := by
  unfold beforeLast at h
  split at h
  · have h1 := List.mem_of_mem_tail (List.mem_reverse.1 h)
    exact List.mem_reverse.1 ((List.dropWhile_sublist _).subset h1)
  · exact h

theorem cstr_after_backslash (path : List Nat) :
    cstr (match strrchr path 92 with
      | some i => path.drop (i + 1)
      | none => path) = afterLast 92 (cstr path) := by
  cases h : strrchr path 92 with
  | none =>
    simp only []
    rw [afterLast_none 92 _ (strrchr_none path 92 h)]
  | some i =>
    obtain ⟨a, b, rfl, hlen, h0, hc⟩ := strrchr_some path 92 i h
    simp only []
    have e : (a ++ 92 :: b).drop (i + 1) = b := by
      rw [← hlen, show a ++ 92 :: b = (a ++ [92]) ++ b by simp]
      exact List.drop_left' (by simp)
    rw [e, cstr_append_of_not_mem a _ h0]
    simp only [cstr, if_neg (show (92 : Nat) ≠ 0 by decide)]
    rw [afterLast_split 92 a (cstr b) hc]

theorem cstr_cut_extension (name : List Nat) :
    cstr (match strrchr name 46 with
      | some j => name.set j 0
      | none => name) = beforeLast 46 (cstr name) := by
  cases h : strrchr name 46 with
  | none =>
    simp only []
    rw [beforeLast_none 46 _ (strrchr_none name 46 h)]
  | some j =>
    obtain ⟨u, v, rfl, hlen, h0, hc⟩ := strrchr_some name 46 j h
    simp only []
    have e : (u ++ 46 :: v).set j 0 = u ++ 0 :: v := by
      rw [← hlen]
      simp
    rw [e, cstr_append_zero u v h0, cstr_append_of_not_mem u _ h0]
    simp only [cstr, if_neg (show (46 : Nat) ≠ 0 by decide)]
    rw [beforeLast_split 46 u (cstr v) hc]

theorem lpProcessName_eq (path : List Nat) :
    cstr (_Open.lpProcessName path) = beforeLast 46 (afterLast 92 (cstr path)) := by
  unfold _Open.lpProcessName
  simp only []
  rw [cstr_cut_extension, cstr_after_backslash]

/-- C18 (base-name derivation): the base name that `_Open` puts at the head of
the file name, the C string at `lpProcessName`, is the part of the executable
path after its last backslash (the whole path without one), cut just before
the last `.` of that part (not cut when that part has none). Hence it holds no
backslash, and a `.` in a directory component never cuts it: for a file part
without backslash and without `.` the base name is the whole file part. -/
theorem base_name_derivation (szProcessPath : List Nat) :
    cstr (_Open.lpProcessName szProcessPath)
      = beforeLast 46 (afterLast 92 (cstr szProcessPath)) ∧
    92 ∉ cstr (_Open.lpProcessName szProcessPath) ∧
    (∀ dir file : List Nat, 0 ∉ dir → 0 ∉ file → 92 ∉ file → 46 ∉ file →
      cstr (_Open.lpProcessName (dir ++ 92 :: file)) = file) ∧
    (∀ dir file ext : List Nat, 0 ∉ dir → 0 ∉ file → 0 ∉ ext → 92 ∉ file → 92 ∉ ext →
      46 ∉ ext → cstr (_Open.lpProcessName (dir ++ 92 :: (file ++ 46 :: ext))) = file) ∧
    cstr (_Open.lpProcessName (lit "C:\\my.dir\\prog.v2.exe")) = lit "prog.v2" := by
  refine ⟨lpProcessName_eq _, ?_, ?_, ?_, by decide⟩
  · rw [lpProcessName_eq]
    intro h
    exact afterLast_not_mem 92 _ (beforeLast_subset 46 92 _ h)
  · intro dir file hd hf h92 h46
    rw [lpProcessName_eq, cstr_append_of_not_mem dir _ hd]
    simp only [cstr, if_neg (show (92 : Nat) ≠ 0 by decide)]
    rw [cstr_of_not_mem file hf, afterLast_split 92 dir file h92, beforeLast_none 46 file h46]
  · intro dir file ext hd hf he h92f h92e h46
    have h0 : 0 ∉ file ++ 46 :: ext := by simp [hf, he]
    have h92 : 92 ∉ file ++ 46 :: ext := by simp [h92f, h92e]
    rw [lpProcessName_eq, cstr_append_of_not_mem dir _ hd]
    simp only [cstr, if_neg (show (92 : Nat) ≠ 0 by decide)]
    rw [cstr_of_not_mem _ h0, afterLast_split 92 dir _ h92, beforeLast_split 46 file ext h46]

/-! ## The search for a file name and the document frame -/

theorem Write_open (b : List Nat) (s : State) (f : Nat) (h : s.g_gzFile = some f) :
    Write b s = { s with trace := s.trace ++ [Ext.gzwrite f (cstr b)] } := by
  simp [Write, WriteN, h, cstr_take]

theorem Write_none (b : List Nat) (s : State) (h : s.g_gzFile = none) : Write b s = s := by
  simp [Write, WriteN, h]

theorem prologue_open (s : State) (f : Nat) (h : s.g_gzFile = some f) :
    Open.prologue s = { s with trace := s.trace ++
      [Ext.gzwrite f (lit "<?xml version='1.0' encoding='UTF-8'?>"),
        Ext.gzwrite f (lit "\r\n"),
        Ext.gzwrite f (lit "<?xml-stylesheet type='text/xsl' href='apitrace.xsl'?>"),
        Ext.gzwrite f (lit "\r\n"),
        Ext.gzwrite f (lit "<"), Ext.gzwrite f (lit "trace"), Ext.gzwrite f (lit ">"),
        Ext.gzwrite f (lit "\r\n")] } := by
  cases s
  simp only at h
  subst h
  simp only [Open.prologue, NewLine, BeginTag, Write, WriteN, List.append_assoc,
    List.cons_append, List.nil_append]
  rfl

theorem prologue_none (s : State) (h : s.g_gzFile = none) : Open.prologue s = s :=
  ((((((emits_Write _).comp emits_NewLine).comp (emits_Write _)).comp emits_NewLine).comp
    (emits_BeginTag _)).comp emits_NewLine).closed s h

theorem digitChar_ne_zero : ∀ d < 10, (Nat.digitChar d).toNat ≠ 0 := by decide

theorem toDigitsCore_no_zero (fuel : Nat) :
    ∀ (n : Nat) (acc : List Char), (∀ c ∈ acc, c.toNat ≠ 0) →
      ∀ c ∈ Nat.toDigitsCore 10 fuel n acc, c.toNat ≠ 0 := by
  induction fuel with
  | zero =>
    intro n acc h
    simpa [Nat.toDigitsCore] using h
  | succ fuel ih =>
    intro n acc h
    have hacc : ∀ c ∈ Nat.digitChar (n % 10) :: acc, c.toNat ≠ 0 := by
      intro c hc
      rcases List.mem_cons.1 hc with rfl | hc
      · exact digitChar_ne_zero _ (Nat.mod_lt _ (by decide))
      · exact h c hc
    simp only [Nat.toDigitsCore]
    split
    · exact hacc
    · exact ih _ _ hacc

theorem utoa_no_zero (n : Nat) : 0 ∉ utoa n := by
  intro h
  obtain ⟨c, hc, e⟩ := List.mem_map.1 h
  exact toDigitsCore_no_zero _ _ [] (by simp) c hc e

theorem formatted_no_zero (lp szName : List Nat) (k : Nat) (szExtension : List Nat) :
    0 ∉ _Open.formatted lp szName k szExtension := by
  have hdot : 0 ∉ lit "." := by decide
  have hgz : 0 ∉ lit ".gz" := by decide
  unfold _Open.formatted
  split <;>
    simp [List.mem_append, cstr_not_mem_zero, utoa_no_zero, hdot, hgz]

theorem snprintf_fits (P : Nat) (lp szName : List Nat) (k : Nat) (szExtension : List Nat)
    (h : (_Open.formatted lp szName k szExtension).length < P) :
    0 ∈ _Open.snprintf P lp szName k szExtension ∧
    cstr (_Open.snprintf P lp szName k szExtension) = _Open.formatted lp szName k szExtension := by
  unfold _Open.snprintf
  simp only [h, if_true]
  exact ⟨by simp, cstr_append_zero _ [] (formatted_no_zero lp szName k szExtension)⟩

theorem snprintf_overflow (P : Nat) (lp szName : List Nat) (k : Nat) (szExtension : List Nat)
    (h : ¬ (_Open.formatted lp szName k szExtension).length < P) :
    0 ∉ _Open.snprintf P lp szName k szExtension := by
  unfold _Open.snprintf
  simp only [h, if_false]
  intro h0
  exact formatted_no_zero lp szName k szExtension (List.mem_of_mem_take h0)

theorem loop_step (env : Env) (lp szName szExtension : List Nat) (fuel d : Nat) :
    _Open.loop env lp szName szExtension (fuel + 1) d =
      if (_Open.formatted lp szName d szExtension).length < env.PATH_MAX then
        if env.fopen (_Open.formatted lp szName d szExtension) then
          _Open.loop env lp szName szExtension fuel ((d + 1) % 2 ^ 32)
        else Search.found d (_Open.formatted lp szName d szExtension)
      else Search.unterminated d := by
  by_cases h : (_Open.formatted lp szName d szExtension).length < env.PATH_MAX
  · obtain ⟨h0, hc⟩ := snprintf_fits env.PATH_MAX lp szName d szExtension h
    simp only [_Open.loop, h0, hc, h, if_true]
  · have h0 := snprintf_overflow env.PATH_MAX lp szName d szExtension h
    simp only [_Open.loop, h0, h, if_false]

theorem loop_found (env : Env) (lp szName szExtension : List Nat) (fuel d k : Nat)
    (name : List Nat) (h : _Open.loop env lp szName szExtension fuel d = Search.found k name) :
    name = _Open.formatted lp szName k szExtension ∧ name.length < env.PATH_MAX ∧
      env.fopen name = false := by
  induction fuel generalizing d with
  | zero => simp [_Open.loop] at h
  | succ fuel ih =>
    rw [loop_step] at h
    split at h
    · rename_i hfit
      split at h
      · exact ih _ h
      · rename_i hf
        simp only [Search.found.injEq] at h
        obtain ⟨rfl, rfl⟩ := h
        exact ⟨rfl, hfit, by simpa using hf⟩
    · simp at h

theorem loop_least (env : Env) (lp szName szExtension : List Nat) (k : Nat)
    (hk : k < 2 ^ 32)
    (hfree : env.fopen (_Open.formatted lp szName k szExtension) = false)
    (n d : Nat) (hd : d + n = k)
    (hfit : ∀ j, d ≤ j → j ≤ k →
      (_Open.formatted lp szName j szExtension).length < env.PATH_MAX)
    (hbusy : ∀ j, d ≤ j → j < k →
      env.fopen (_Open.formatted lp szName j szExtension) = true)
    (fuel : Nat) (hfuel : n < fuel) :
    _Open.loop env lp szName szExtension fuel d
      = Search.found k (_Open.formatted lp szName k szExtension) := by
  induction n generalizing d fuel with
  | zero =>
    obtain ⟨fuel, rfl⟩ : ∃ m, fuel = m + 1 := ⟨fuel - 1, by omega⟩
    have e : d = k := by omega
    subst e
    rw [loop_step]
    simp [hfit d (le_refl d) (le_refl d), hfree]
  | succ n ih =>
    obtain ⟨fuel, rfl⟩ : ∃ m, fuel = m + 1 := ⟨fuel - 1, by omega⟩
    have hb := hbusy d (le_refl d) (by omega)
    have hmod : (d + 1) % 2 ^ 32 = d + 1 := Nat.mod_eq_of_lt (by omega)
    rw [loop_step]
    simp only [hfit d (le_refl d) (by omega), hb, if_true, hmod]
    exact ih (d + 1) (by omega) (fun j h1 h2 => hfit j (by omega) h2)
      (fun j h1 h2 => hbusy j (by omega) h2) fuel (by omega)

theorem loop_total (env : Env) (lp szName szExtension : List Nat) (k : Nat)
    (hk : k < 2 ^ 32)
    (hfree : env.fopen (_Open.formatted lp szName k szExtension) = false)
    (n d : Nat) (hd : d + n = k)
    (hfit : ∀ j, d ≤ j → j ≤ k →
      (_Open.formatted lp szName j szExtension).length < env.PATH_MAX)
    (fuel : Nat) (hfuel : n < fuel) :
    ∃ j name, _Open.loop env lp szName szExtension fuel d = Search.found j name := by
  induction n generalizing d fuel with
  | zero =>
    obtain ⟨fuel, rfl⟩ : ∃ m, fuel = m + 1 := ⟨fuel - 1, by omega⟩
    have e : d = k := by omega
    subst e
    rw [loop_step]
    simp [hfit d (le_refl d) (le_refl d), hfree]
  | succ n ih =>
    obtain ⟨fuel, rfl⟩ : ∃ m, fuel = m + 1 := ⟨fuel - 1, by omega⟩
    have hmod : (d + 1) % 2 ^ 32 = d + 1 := Nat.mod_eq_of_lt (by omega)
    rw [loop_step]
    simp only [hfit d (le_refl d) (by omega), if_true, hmod]
    split
    · exact ih (d + 1) (by omega) (fun j h1 h2 => hfit j (by omega) h2) fuel (by omega)
    · exact ⟨_, _, rfl⟩

theorem formatted_xml (lp szName : List Nat) (k : Nat) :
    _Open.formatted lp szName k (lit "xml") =
      if k = 0 then cstr lp ++ lit "." ++ cstr szName ++ lit ".xml.gz"
      else cstr lp ++ lit "." ++ cstr szName ++ lit "." ++ utoa k ++ lit ".xml.gz" := by
  unfold _Open.formatted
  by_cases h : k = 0
  · simp [h, lit, cstr]
  · simp [h, lit, cstr]

theorem _Close_dwCounter (s : State) : (_Close s).dwCounter = s.dwCounter := by
  unfold _Close
  split <;> rfl

theorem _Close_gzopen (s : State) (n m : List Nat) (h : Ext.gzopen n m ∈ (_Close s).trace) :
    Ext.gzopen n m ∈ s.trace := by
  unfold _Close at h
  split at h
  · simpa using h
  · exact h

theorem _Open_found (env : Env) (fuel : Nat) (szName szExtension : List Nat) (s : State)
    (k : Nat) (name : List Nat)
    (h : _Open.loop env (_Open.lpProcessName env.szProcessPath) szName szExtension fuel
      s.dwCounter = Search.found k name) :
    _Open env fuel szName szExtension s = some
      { _Close s with
        dwCounter := k
        g_szFileName := name
        g_gzFile := env.gzopen name
        trace := (_Close s).trace ++
          [Ext.gzopen name (lit "wb"), Ext.InitializeCriticalSection] } := by
  unfold _Open
  simp only [_Close_dwCounter, h]

theorem _Open_some (env : Env) (fuel : Nat) (szName szExtension : List Nat) (s s1 : State)
    (h : _Open env fuel szName szExtension s = some s1) :
    ∃ k name,
      _Open.loop env (_Open.lpProcessName env.szProcessPath) szName szExtension fuel
        s.dwCounter = Search.found k name ∧
      s1 = { _Close s with
        dwCounter := k
        g_szFileName := name
        g_gzFile := env.gzopen name
        trace := (_Close s).trace ++
          [Ext.gzopen name (lit "wb"), Ext.InitializeCriticalSection] } := by
  cases hl : _Open.loop env (_Open.lpProcessName env.szProcessPath) szName szExtension fuel
      s.dwCounter with
  | found k name =>
    rw [_Open_found env fuel szName szExtension s k name hl] at h
    exact ⟨k, name, rfl, (Option.some.inj h).symm⟩
  | unterminated k =>
    unfold _Open at h
    simp [_Close_dwCounter, hl] at h
  | running =>
    unfold _Open at h
    simp [_Close_dwCounter, hl] at h

theorem prologue_fields (s : State) :
    (Open.prologue s).g_szFileName = s.g_szFileName ∧
    (Open.prologue s).dwCounter = s.dwCounter ∧
    (Open.prologue s).g_gzFile = s.g_gzFile ∧
    (∀ n m, Ext.gzopen n m ∈ (Open.prologue s).trace ↔ Ext.gzopen n m ∈ s.trace) := by
  cases h : s.g_gzFile with
  | none => rw [prologue_none s h]; simp [h]
  | some f => rw [prologue_open s f h]; simp [h]

theorem Open_some (env : Env) (fuel : Nat) (name : List Nat) (s s' : State)
    (h : Open env fuel name s = some s') :
    ∃ s1, _Open env fuel name (lit "xml") s = some s1 ∧ s' = Open.prologue s1 := by
  unfold Open at h
  cases h1 : _Open env fuel name (lit "xml") s with
  | none => simp [h1] at h
  | some s1 =>
    simp only [h1, Option.map_some', Option.some.injEq] at h
    exact ⟨s1, rfl, h.symm⟩

/-- C11, the claim as stated fails: in the process of `lockedEnv` the default
candidate `prog.a.xml.gz` exists but cannot be opened for reading, so that
`fopen(name, "rb")` returns `NULL` for it; `Open("a")` selects this existing
name and hands it to `gzopen` for writing. -/
theorem Open_selects_unreadable_file :
    lockedEnv.fileExists (lit "prog.a.xml.gz") = true ∧
    (Open lockedEnv 2 (lit "a") initial).map
      (fun s => (s.g_szFileName,
        decide (Ext.gzopen (lit "prog.a.xml.gz") (lit "wb") ∈ s.trace)))
      = some (lit "prog.a.xml.gz", true) := by
  decide

/-- C11 as amended: whenever `Open` returns, `fopen(name, "rb")` failed on the
file name it selected, `g_szFileName`, when the search loop tested it: the
selected name is not the name of an existing file that the process can open
for reading (so it does not exist when it would be readable); the selected name
is handed to `gzopen` for writing and no other file is opened for writing by
the call. In particular, when the default candidate
`<base>.<logical_name>.xml.gz` exists and can be opened for reading, the
selected name differs from it and the call does not open that file for
writing. Moreover `Open` does return, within `k + 1 - dwCounter` iterations of
the search loop, as soon as `fopen` fails on the candidate of some counter
value `k` not below the current one, the candidate names up to `k` being
shorter than `PATH_MAX`. -/
theorem Open_collision_free (env : Env) (fuel : Nat) (name : List Nat) (s s' : State)
    (h : Open env fuel name s = some s') :
    env.fopen s'.g_szFileName = false ∧
    (env.readable s'.g_szFileName = true → env.fileExists s'.g_szFileName = false) ∧
    Ext.gzopen s'.g_szFileName (lit "wb") ∈ s'.trace ∧
    (∀ n m, Ext.gzopen n m ∈ s'.trace → Ext.gzopen n m ∈ s.trace ∨ n = s'.g_szFileName) ∧
    (env.fopen (cstr (_Open.lpProcessName env.szProcessPath) ++ lit "." ++ cstr name
        ++ lit ".xml.gz") = true →
      s'.g_szFileName ≠ cstr (_Open.lpProcessName env.szProcessPath) ++ lit "." ++ cstr name
        ++ lit ".xml.gz" ∧
      (∀ m, Ext.gzopen (cstr (_Open.lpProcessName env.szProcessPath) ++ lit "." ++ cstr name
          ++ lit ".xml.gz") m ∈ s'.trace →
        Ext.gzopen (cstr (_Open.lpProcessName env.szProcessPath) ++ lit "." ++ cstr name
          ++ lit ".xml.gz") m ∈ s.trace)) ∧
    (∀ k, s.dwCounter ≤ k → k < 2 ^ 32 →
      (∀ j, s.dwCounter ≤ j → j ≤ k →
        (_Open.formatted (_Open.lpProcessName env.szProcessPath) name j (lit "xml")).length
          < env.PATH_MAX) →
      env.fopen (_Open.formatted (_Open.lpProcessName env.szProcessPath) name k (lit "xml"))
        = false →
      (Open env (k + 1 - s.dwCounter) name s).isSome = true) := by
  obtain ⟨s1, h1, rfl⟩ := Open_some env fuel name s s' h
  obtain ⟨k, nm, hl, rfl⟩ := _Open_some env fuel name (lit "xml") s s1 h1
  obtain ⟨-, -, hfree⟩ := loop_found env _ name (lit "xml") fuel s.dwCounter k nm hl
  obtain ⟨p1, -, -, p4⟩ := prologue_fields
    { _Close s with
      dwCounter := k
      g_szFileName := nm
      g_gzFile := env.gzopen nm
      trace := (_Close s).trace ++ [Ext.gzopen nm (lit "wb"), Ext.InitializeCriticalSection] }
  simp only [] at p1 p4
  have honly : ∀ n m, Ext.gzopen n m ∈ (Open.prologue
      { _Close s with
        dwCounter := k
        g_szFileName := nm
        g_gzFile := env.gzopen nm
        trace := (_Close s).trace ++
          [Ext.gzopen nm (lit "wb"), Ext.InitializeCriticalSection] }).trace →
      Ext.gzopen n m ∈ s.trace ∨ n = nm := by
    intro n m hm
    rw [p4] at hm
    simp only [List.mem_append, List.mem_cons, Ext.gzopen.injEq, reduceCtorEq,
      List.mem_singleton, or_false, List.not_mem_nil] at hm
    rcases hm with hm | hm
    · exact Or.inl (_Close_gzopen s n m hm)
    · exact Or.inr hm.1
  refine ⟨by rw [p1]; exact hfree, ?_, ?_, ?_, ?_, ?_⟩
  · rw [p1]
    intro hr
    have hf := hfree
    simp only [Env.fopen, hr, Bool.and_true] at hf
    exact hf
  · rw [p1, p4]
    simp
  · intro n m hm
    rw [p1]
    exact honly n m hm
  · intro hex
    have hne : nm ≠ cstr (_Open.lpProcessName env.szProcessPath) ++ lit "." ++ cstr name
        ++ lit ".xml.gz" := by
      intro e
      rw [← e, hfree] at hex
      exact Bool.noConfusion hex
    refine ⟨by rw [p1]; exact hne, fun m hm => ?_⟩
    rcases honly _ m hm with hm | hm
    · exact hm
    · exact absurd hm.symm hne
  · intro j hj hlt hfit hf
    obtain ⟨j', nm', hq⟩ := loop_total env (_Open.lpProcessName env.szProcessPath) name
      (lit "xml") j hlt hf (j - s.dwCounter) s.dwCounter (by omega) hfit
      (j + 1 - s.dwCounter) (by omega)
    unfold Open
    rw [_Open_found env _ name (lit "xml") s j' nm' hq]
    rfl

/-- Witness of C11 as amended: the first `Open` of the process of `demoEnv`,
where the default candidate `prog.a.xml.gz` exists and can be read. -/
theorem Open_collision_free_witness :
    Open demoEnv 2 (lit "a") initial = some demoSession ∧
    demoEnv.fopen (lit "prog.a.xml.gz") = true ∧
    demoEnv.fopen demoSession.g_szFileName = false ∧
    demoSession.g_szFileName ≠ lit "prog.a.xml.gz" :=
  ⟨by decide, by decide, (Open_collision_free demoEnv 2 (lit "a") initial demoSession
    (by decide)).1, ((Open_collision_free demoEnv 2 (lit "a") initial demoSession
    (by decide)).2.2.2.2.1 (by decide)).1⟩

/-- C12, the claim as stated fails, in three ways. In the process of `demoEnv`
the first `Open("a")` finds `prog.a.xml.gz` and selects `prog.a.1.xml.gz`,
leaving the static counter at 1; the following `Open("b")` selects
`prog.b.1.xml.gz` although `prog.b.xml.gz` does not exist. In the process of
`lockedEnv` the name `prog.a.xml.gz` exists but cannot be opened for reading,
and the first `Open("a")` selects it, without a counter. In the process of
`tinyEnv` the name `prog.a.xml.gz` does not exist but fills the 13 bytes of
`g_szFileName`, which is left without a terminator: the search ends with no
name that `fopen` could be given. -/
theorem Open_counter_not_minimal :
    demoEnvLater.fileExists (lit "prog.b.xml.gz") = false ∧
    (Open demoEnv 2 (lit "a") initial).map State.g_szFileName
      = some (lit "prog.a.1.xml.gz") ∧
    ((Open demoEnv 2 (lit "a") initial).bind (Open demoEnvLater 2 (lit "b"))).map
      State.g_szFileName = some (lit "prog.b.1.xml.gz") ∧
    lockedEnv.fileExists (lit "prog.a.xml.gz") = true ∧
    (Open lockedEnv 2 (lit "a") initial).map State.g_szFileName
      = some (lit "prog.a.xml.gz") ∧
    tinyEnv.fileExists (lit "prog.a.xml.gz") = false ∧
    _Open.loop tinyEnv (_Open.lpProcessName tinyEnv.szProcessPath) (lit "a") (lit "xml") 2
      initial.dwCounter = Search.unterminated 0 ∧
    Open tinyEnv 2 (lit "a") initial = none := by
  decide

/-- C12 as amended: let `d` be the value of the static counter when `Open` is
entered (0 at the first `Open` of the process, afterwards the value the
previous `Open` left) and `k` the smallest counter value from `d` on, below
`2^32`, on whose candidate name `fopen(name, "rb")` fails (the name does not
exist, or exists and cannot be opened for reading), the candidate names of the
counter values from `d` to `k` being shorter than `PATH_MAX`. Then `Open`
returns, leaves the counter at `k`, and the selected name is
`<base>.<logical_name>.xml.gz` when `k = 0` and
`<base>.<logical_name>.<k>.xml.gz` otherwise; it does not exist when it would
be readable. Counter values below `d` are not tried. -/
theorem Open_least_counter (env : Env) (name : List Nat) (s : State) (k : Nat)
    (hk : k < 2 ^ 32) (hd : s.dwCounter ≤ k)
    (hfit : ∀ j, s.dwCounter ≤ j → j ≤ k →
      (_Open.formatted (_Open.lpProcessName env.szProcessPath) name j (lit "xml")).length
        < env.PATH_MAX)
    (hfree : env.fopen (_Open.formatted (_Open.lpProcessName env.szProcessPath)
      name k (lit "xml")) = false)
    (hbusy : ∀ j, s.dwCounter ≤ j → j < k →
      env.fopen (_Open.formatted (_Open.lpProcessName env.szProcessPath)
        name j (lit "xml")) = true)
    (fuel : Nat) (hfuel : k - s.dwCounter < fuel) :
    ∃ s', Open env fuel name s = some s' ∧ s'.dwCounter = k ∧
      s'.g_szFileName =
        (if k = 0 then
          cstr (_Open.lpProcessName env.szProcessPath) ++ lit "." ++ cstr name
            ++ lit ".xml.gz"
        else
          cstr (_Open.lpProcessName env.szProcessPath) ++ lit "." ++ cstr name ++ lit "."
            ++ utoa k ++ lit ".xml.gz") ∧
      (env.readable s'.g_szFileName = true → env.fileExists s'.g_szFileName = false) := by
  have hl := loop_least env (_Open.lpProcessName env.szProcessPath) name (lit "xml") k hk hfree
    (k - s.dwCounter) s.dwCounter (by omega) hfit hbusy fuel hfuel
  have ho := _Open_found env fuel name (lit "xml") s k _ hl
  refine ⟨_, by unfold Open; rw [ho]; rfl, ?_, ?_, ?_⟩
  · rw [(prologue_fields _).2.1]
  · rw [(prologue_fields _).1]
    exact formatted_xml _ _ _
  · rw [(prologue_fields _).1]
    intro hr
    have hf := hfree
    simp only [Env.fopen, Bool.and_eq_false_imp] at hf
    simp only [] at hr
    cases hx : env.fileExists (_Open.formatted (_Open.lpProcessName env.szProcessPath)
        name k (lit "xml")) with
    | false => rfl
    | true =>
      have := hf hx
      rw [hr] at this
      exact Bool.noConfusion this

/-- Witness of C12 as amended: the first `Open("a")` of the process of
`demoEnv`, with `k = 1`. -/
theorem Open_least_counter_witness :
    (1 : Nat) < 2 ^ 32 ∧ initial.dwCounter ≤ 1 ∧
    (∀ j, initial.dwCounter ≤ j → j ≤ 1 →
      (_Open.formatted (_Open.lpProcessName demoEnv.szProcessPath) (lit "a") j
        (lit "xml")).length < demoEnv.PATH_MAX) ∧
    demoEnv.fopen (_Open.formatted (_Open.lpProcessName demoEnv.szProcessPath)
      (lit "a") 1 (lit "xml")) = false ∧
    (∀ j, initial.dwCounter ≤ j → j < 1 →
      demoEnv.fopen (_Open.formatted (_Open.lpProcessName demoEnv.szProcessPath)
        (lit "a") j (lit "xml")) = true) ∧
    1 - initial.dwCounter < 2 ∧
    ∃ s', Open demoEnv 2 (lit "a") initial = some s' ∧ s'.dwCounter = 1 ∧
      s'.g_szFileName =
        (if 1 = 0 then
          cstr (_Open.lpProcessName demoEnv.szProcessPath) ++ lit "." ++ cstr (lit "a")
            ++ lit ".xml.gz"
        else
          cstr (_Open.lpProcessName demoEnv.szProcessPath) ++ lit "." ++ cstr (lit "a")
            ++ lit "." ++ utoa 1 ++ lit ".xml.gz") ∧
      (demoEnv.readable s'.g_szFileName = true →
        demoEnv.fileExists s'.g_szFileName = false) :=
  have hfit : ∀ j, initial.dwCounter ≤ j → j ≤ 1 →
      (_Open.formatted (_Open.lpProcessName demoEnv.szProcessPath) (lit "a") j
        (lit "xml")).length < demoEnv.PATH_MAX := by
    intro j _ hj
    interval_cases j <;> decide
  have hb : ∀ j, initial.dwCounter ≤ j → j < 1 →
      demoEnv.fopen (_Open.formatted (_Open.lpProcessName demoEnv.szProcessPath)
        (lit "a") j (lit "xml")) = true := by
    intro j _ hj
    have e : j = 0 := by omega
    subst e
    decide
  ⟨by decide, by decide, hfit, by decide, hb, by decide,
    Open_least_counter demoEnv (lit "a") initial 1 (by decide) (by decide) hfit (by decide) hb 2
      (by decide)⟩

/-! ## Claims on the wide string escaper and on the output alphabet -/

theorem wbody_eq_body (c : Nat) (s : State) : DumpWString.body c s = DumpString.body c s := by
  unfold DumpWString.body DumpString.body
  by_cases hp : c ≥ 0x20 ∧ c ≤ 0x7e
  · have e : c % 256 = c := Nat.mod_eq_of_lt (by omega)
    rw [e]
  · simp only [hp, if_false]

theorem wloop_eq_loop (p : List Nat) (s : State) :
    DumpWString.loop p s = DumpString.loop p s := by
  induction p generalizing s with
  | nil => rfl
  | cons c p ih =>
    simp only [DumpWString.loop, DumpString.loop, wbody_eq_body, ih]

/-- C19 (the wide escaper agrees with the narrow one): on an open session, for
a sequence of wide characters whose values are all below 256, `DumpWString`
appends the letter `L` followed by exactly the bytes that `DumpString` appends
for the same values taken as bytes: the same opening quote, the same escape
text for every character before the first zero, the same closing quote. -/
theorem wide_agrees_with_narrow (str : List Nat) (s : State) (h : s.g_gzFile ≠ none)
    (_hb : ∀ c ∈ str, c < 256) :
    written (DumpWString str s) =
      written s ++ lit "L" ++ (written (DumpString str s)).drop (written s).length := by
  rw [(emits_DumpString str).appends s h, List.drop_left,
    (emits_DumpWString str).appends s h]
  have e : (fun c => written (DumpWString.body c fresh))
      = (fun c => written (DumpString.body c fresh)) := by
    funext c
    rw [wbody_eq_body]
  rw [e]
  simp [lit]

/-- Witness of C19: the wide string `a"é` followed by a character of value 1,
on a fresh open session. -/
theorem wide_agrees_with_narrow_witness :
    fresh.g_gzFile ≠ none ∧ (∀ c ∈ [97, 34, 233, 1], c < 256) ∧
    written (DumpWString [97, 34, 233, 1] fresh) = lit "L\"a\\\"\\551\\1\"" :=
  ⟨by decide, by decide, by
    rw [wide_agrees_with_narrow [97, 34, 233, 1] fresh (by decide) (by decide)]
    decide⟩

theorem and_7_lt (x : Nat) : x &&& 0x7 < 8 := by
  have : x &&& 0x7 = x % 8 := Nat.and_pow_two_sub_one_eq_mod x 3
  omega

theorem octal_branch_alphabet : ∀ o1 < 8, ∀ o0 < 8,
    ∀ x ∈ written (if o1 ≠ 0 then TextF (lit "\\%u%u%u") [o1, o1, o0] fresh
      else if o1 ≠ 0 then TextF (lit "\\%u%u") [o1, o0] fresh
      else TextF (lit "\\%u") [o0] fresh), 0x20 ≤ x ∧ x ≤ 0x7e := by
  decide

theorem body_alphabet (c : Nat) :
    ∀ x ∈ written (DumpString.body c fresh), 0x20 ≤ x ∧ x ≤ 0x7e := by
  by_cases h1 : c = 34
  · subst h1; decide
  by_cases h2 : c = 92
  · subst h2; decide
  by_cases h3 : c ≥ 0x20 ∧ c ≤ 0x7e
  · rw [body_printable c h3.1 h3.2 h1 h2]
    intro x hx
    rw [List.mem_singleton.1 hx]
    exact h3
  by_cases h4 : c = 9
  · subst h4; decide
  by_cases h5 : c = 13
  · subst h5; decide
  by_cases h6 : c = 10
  · subst h6; decide
  have e : DumpString.body c fresh =
      (if (c >>> 3) &&& 0x7 ≠ 0 then
        TextF (lit "\\%u%u%u") [(c >>> 3) &&& 0x7, (c >>> 3) &&& 0x7, c &&& 0x7] fresh
      else if (c >>> 3) &&& 0x7 ≠ 0 then
        TextF (lit "\\%u%u") [(c >>> 3) &&& 0x7, c &&& 0x7] fresh
      else TextF (lit "\\%u") [c &&& 0x7] fresh) := by
    simp only [DumpString.body, h1, h2, h3, h4, h5, h6, if_false]
  rw [e]
  exact octal_branch_alphabet _ (and_7_lt _) _ (and_7_lt _)

theorem flatMap_body_alphabet (p : List Nat) :
    ∀ x ∈ p.flatMap (fun c => written (DumpString.body c fresh)), 0x20 ≤ x ∧ x ≤ 0x7e := by
  intro x hx
  obtain ⟨c, _, hc⟩ := List.mem_flatMap.1 hx
  exact body_alphabet c x hc

/-- C20 (text-safe output alphabet): on an open session every byte that
`DumpString` appends, for any byte string, and every byte that `DumpWString`
appends, for any wide string, is a printable ASCII character `0x20..0x7E`. -/
theorem output_alphabet (str : List Nat) (s : State) (h : s.g_gzFile ≠ none) :
    (∀ x ∈ (written (DumpString str s)).drop (written s).length, 0x20 ≤ x ∧ x ≤ 0x7e) ∧
    (∀ x ∈ (written (DumpWString str s)).drop (written s).length, 0x20 ≤ x ∧ x ≤ 0x7e) := by
  have e : (fun c => written (DumpWString.body c fresh))
      = (fun c => written (DumpString.body c fresh)) := by
    funext c
    rw [wbody_eq_body]
  rw [(emits_DumpString str).appends s h, (emits_DumpWString str).appends s h, e,
    List.drop_left, List.drop_left]
  constructor
  · intro x hx
    simp only [List.mem_append] at hx
    rcases hx with (hx | hx) | hx
    · exact (by decide : ∀ y ∈ lit "\"", 0x20 ≤ y ∧ y ≤ 0x7e) x hx
    · exact flatMap_body_alphabet _ x hx
    · exact (by decide : ∀ y ∈ lit "\"", 0x20 ≤ y ∧ y ≤ 0x7e) x hx
  · intro x hx
    simp only [List.mem_append] at hx
    rcases hx with (hx | hx) | hx
    · exact (by decide : ∀ y ∈ lit "L\"", 0x20 ≤ y ∧ y ≤ 0x7e) x hx
    · exact flatMap_body_alphabet _ x hx
    · exact (by decide : ∀ y ∈ lit "\"", 0x20 ≤ y ∧ y ≤ 0x7e) x hx

/-- Witness of C20: a string with a control byte, a line feed and a byte above
`0x7F`, on a fresh open session. -/
theorem output_alphabet_witness :
    fresh.g_gzFile ≠ none ∧
    (∀ x ∈ (written (DumpString [7, 10, 200, 65] fresh)).drop (written fresh).length,
      0x20 ≤ x ∧ x ≤ 0x7e) :=
  ⟨by decide, (output_alphabet [7, 10, 200, 65] fresh (by decide)).1⟩

/-! ## Sequences of event calls: bytes, tags and nesting -/

theorem emits_op (fmtP : Nat → List Nat) (op : Op) :
    Emits (op.run fmtP) (Op.out fmtP op) := by
  have key : ∀ (f : State → State) (a : List Nat), Emits f a → Emits f (written (f fresh)) := by
    intro f a h
    have e := h.out_eq
    rw [← e]
    exact h
  cases op with
  | BeginCall function tsc => exact key _ _ (emits_BeginCall function tsc)
  | EndCall tsc => exact key _ _ (emits_EndCall tsc)
  | BeginArg type name => exact key _ _ (emits_BeginArg type name)
  | EndArg => exact key _ _ emits_EndArg
  | BeginReturn type => exact key _ _ (emits_BeginReturn type)
  | EndReturn => exact key _ _ emits_EndReturn
  | BeginElement2 type name => exact key _ _ (emits_BeginElement2 type name)
  | BeginElement type => exact key _ _ (emits_BeginElement type)
  | EndElement => exact key _ _ emits_EndElement
  | BeginReference type addr => exact key _ _ (emits_BeginReference fmtP type addr)
  | EndReference => exact key _ _ emits_EndReference
  | Text text => exact key _ _ (emits_Text text)

theorem emits_runOps (fmtP : Nat → List Nat) (ops : List Op) :
    Emits (runOps fmtP ops) (ops.flatMap (Op.out fmtP)) := by
  induction ops with
  | nil => exact emits_id
  | cons op ops ih =>
    have h := (emits_op fmtP op).comp ih
    rw [List.flatMap_cons]
    exact h

theorem tags_go_lt (r : List Nat) : tags.go none (60 :: r) = tags.go (some []) r := rfl

theorem tags_go_gt (acc r : List Nat) : tags.go (some acc) (62 :: r) = acc :: tags.go none r :=
  rfl

theorem angleFree_gt {t : List Nat} (h : angleFree t) : ∀ c ∈ cstr t, c ≠ 62 :=
  fun c hc => (h c hc).2

theorem angleFree_lt {t : List Nat} (h : angleFree t) : ∀ c ∈ cstr t, c ≠ 60 :=
  fun c hc => (h c hc).1

theorem plain_angleFree {t : List Nat} (h : plain t) : angleFree t :=
  fun c hc => ⟨(h c hc).1, (h c hc).2.1⟩

theorem op_plain_angleFree (fmtP : Nat → List Nat) (op : Op) (h : op.plain fmtP) :
    op.angleFree fmtP := by
  cases op with
  | BeginCall function tsc => exact Log.plain_angleFree h
  | BeginArg type name => exact ⟨Log.plain_angleFree h.1, Log.plain_angleFree h.2⟩
  | BeginReturn type => exact Log.plain_angleFree h
  | BeginElement2 type name => exact ⟨Log.plain_angleFree h.1, Log.plain_angleFree h.2⟩
  | BeginElement type => exact Log.plain_angleFree h
  | BeginReference type addr => exact ⟨Log.plain_angleFree h.1, Log.plain_angleFree h.2⟩
  | Text text => exact Log.plain_angleFree h
  | EndCall tsc => trivial
  | EndArg => trivial
  | EndReturn => trivial
  | EndElement => trivial
  | EndReference => trivial

theorem tags_BeginCall (fmtP : Nat → List Nat) (function : List Nat) (tsc : Nat)
    (h : angleFree function) (r : List Nat) :
    tags.go none (Op.out fmtP (.BeginCall function tsc) ++ r)
      = Op.tags fmtP (.BeginCall function tsc) ++ tags.go none r := by
  have N : Op.out fmtP (.BeginCall function tsc) ++ r =
      lit "\t" ++ (60 :: (lit "call name=\"" ++ (cstr function ++ (lit "\"" ++ (62 ::
        (lit "\r\n\t\t" ++ (60 :: (lit "starttsc" ++ (62 :: (hexText 8 tsc ++ (60 ::
        (lit "/starttsc" ++ (62 :: (lit "\r\n" ++ r)))))))))))))) := by
    show written (BeginCall function tsc fresh) ++ r = _
    rw [← (emits_BeginCall function tsc).out_eq]
    simp only [cstr_szBuffer, sizeof_tsc]
    simp [lit, cstr]
  rw [N, tags_go_none_append _ _ (by decide), tags_go_lt,
    tags_go_some_append _ _ _ (by decide), tags_go_some_append _ _ _ (angleFree_gt h),
    tags_go_some_append _ _ _ (by decide), tags_go_gt,
    tags_go_none_append _ _ (by decide), tags_go_lt, tags_go_some_append _ _ _ (by decide),
    tags_go_gt, tags_go_none_append _ _ (hexText_no_lt 8 tsc), tags_go_lt,
    tags_go_some_append _ _ _ (by decide), tags_go_gt, tags_go_none_append _ _ (by decide)]
  rfl

theorem tags_EndCall (fmtP : Nat → List Nat) (tsc : Nat) (r : List Nat) :
    tags.go none (Op.out fmtP (.EndCall tsc) ++ r)
      = Op.tags fmtP (.EndCall tsc) ++ tags.go none r := by
  have N : Op.out fmtP (.EndCall tsc) ++ r =
      lit "\t\t" ++ (60 :: (lit "endtsc" ++ (62 :: (hexText 8 tsc ++ (60 ::
        (lit "/endtsc" ++ (62 :: (lit "\r\n\t" ++ (60 :: (lit "/call" ++ (62 ::
        (lit "\r\n" ++ r)))))))))))) := by
    show written (EndCall tsc fresh) ++ r = _
    rw [← (emits_EndCall tsc).out_eq]
    simp only [cstr_szBuffer, sizeof_tsc]
    simp [lit, cstr]
  rw [N, tags_go_none_append _ _ (by decide), tags_go_lt,
    tags_go_some_append _ _ _ (by decide), tags_go_gt,
    tags_go_none_append _ _ (hexText_no_lt 8 tsc), tags_go_lt,
    tags_go_some_append _ _ _ (by decide), tags_go_gt,
    tags_go_none_append _ _ (by decide), tags_go_lt, tags_go_some_append _ _ _ (by decide),
    tags_go_gt, tags_go_none_append _ _ (by decide)]
  rfl

theorem tags_open1 (ws head v r : List Nat) (hws : ∀ c ∈ ws, c ≠ 60)
    (hhead : ∀ c ∈ head, c ≠ 62) (hv : ∀ c ∈ v, c ≠ 62) :
    tags.go none (ws ++ (60 :: (head ++ (v ++ (lit "\"" ++ (62 :: r))))))
      = (head ++ v ++ lit "\"") :: tags.go none r := by
  rw [tags_go_none_append _ _ hws, tags_go_lt, tags_go_some_append _ _ _ hhead,
    tags_go_some_append _ _ _ hv, tags_go_some_append _ _ _ (by decide), tags_go_gt]
  rfl

theorem tags_open2 (ws head v1 mid v2 r : List Nat) (hws : ∀ c ∈ ws, c ≠ 60)
    (hhead : ∀ c ∈ head, c ≠ 62) (hv1 : ∀ c ∈ v1, c ≠ 62) (hmid : ∀ c ∈ mid, c ≠ 62)
    (hv2 : ∀ c ∈ v2, c ≠ 62) :
    tags.go none (ws ++ (60 :: (head ++ (v1 ++ (mid ++ (v2 ++ (lit "\"" ++ (62 :: r))))))))
      = (head ++ v1 ++ mid ++ v2 ++ lit "\"") :: tags.go none r := by
  rw [tags_go_none_append _ _ hws, tags_go_lt, tags_go_some_append _ _ _ hhead,
    tags_go_some_append _ _ _ hv1, tags_go_some_append _ _ _ hmid,
    tags_go_some_append _ _ _ hv2, tags_go_some_append _ _ _ (by decide), tags_go_gt]
  rfl

theorem tags_close (name ws r : List Nat) (hname : ∀ c ∈ name, c ≠ 62)
    (hws : ∀ c ∈ ws, c ≠ 60) :
    tags.go none (60 :: (name ++ (62 :: (ws ++ r)))) = name :: tags.go none r := by
  rw [tags_go_lt, tags_go_some_append _ _ _ hname, tags_go_gt, tags_go_none_append _ _ hws]
  rfl

theorem tags_op (fmtP : Nat → List Nat) (op : Op) (h : op.angleFree fmtP) (r : List Nat) :
    tags.go none (Op.out fmtP op ++ r) = Op.tags fmtP op ++ tags.go none r := by
  cases op with
  | BeginCall function tsc => exact tags_BeginCall fmtP function tsc h r
  | EndCall tsc => exact tags_EndCall fmtP tsc r
  | BeginArg type name =>
    have N : Op.out fmtP (.BeginArg type name) ++ r =
        lit "\t\t" ++ (60 :: (lit "arg type=\"" ++ (cstr type ++ (lit "\" name=\"" ++
          (cstr name ++ (lit "\"" ++ (62 :: r))))))) := by
      show written (BeginArg type name fresh) ++ r = _
      rw [← (emits_BeginArg type name).out_eq]
      simp [lit, cstr]
    rw [N, tags_open2 _ _ _ _ _ _ (by decide) (by decide) (angleFree_gt h.1) (by decide)
      (angleFree_gt h.2)]
    rfl
  | EndArg =>
    have N : Op.out fmtP .EndArg ++ r = 60 :: (lit "/arg" ++ (62 :: (lit "\r\n" ++ r))) := by
      show written (EndArg fresh) ++ r = _
      rw [← emits_EndArg.out_eq]
      simp [lit, cstr]
    rw [N, tags_close _ _ _ (by decide) (by decide)]
    rfl
  | BeginReturn type =>
    have N : Op.out fmtP (.BeginReturn type) ++ r =
        lit "\t\t" ++ (60 :: (lit "ret type=\"" ++ (cstr type ++ (lit "\"" ++ (62 :: r))))) := by
      show written (BeginReturn type fresh) ++ r = _
      rw [← (emits_BeginReturn type).out_eq]
      simp [lit, cstr]
    rw [N, tags_open1 _ _ _ _ (by decide) (by decide) (angleFree_gt h)]
    rfl
  | EndReturn =>
    have N : Op.out fmtP .EndReturn ++ r = 60 :: (lit "/ret" ++ (62 :: (lit "\r\n" ++ r))) := by
      show written (EndReturn fresh) ++ r = _
      rw [← emits_EndReturn.out_eq]
      simp [lit, cstr]
    rw [N, tags_close _ _ _ (by decide) (by decide)]
    rfl
  | BeginElement2 type name =>
    have N : Op.out fmtP (.BeginElement2 type name) ++ r =
        [] ++ (60 :: (lit "elem type=\"" ++ (cstr type ++ (lit "\" name=\"" ++
          (cstr name ++ (lit "\"" ++ (62 :: r))))))) := by
      show written (BeginElement2 type name fresh) ++ r = _
      rw [← (emits_BeginElement2 type name).out_eq]
      simp [lit, cstr]
    rw [N, tags_open2 _ _ _ _ _ _ (by decide) (by decide) (angleFree_gt h.1) (by decide)
      (angleFree_gt h.2)]
    rfl
  | BeginElement type =>
    have N : Op.out fmtP (.BeginElement type) ++ r =
        [] ++ (60 :: (lit "elem type=\"" ++ (cstr type ++ (lit "\"" ++ (62 :: r))))) := by
      show written (BeginElement type fresh) ++ r = _
      rw [← (emits_BeginElement type).out_eq]
      simp [lit, cstr]
    rw [N, tags_open1 _ _ _ _ (by decide) (by decide) (angleFree_gt h)]
    rfl
  | EndElement =>
    have N : Op.out fmtP .EndElement ++ r = 60 :: (lit "/elem" ++ (62 :: ([] ++ r))) := by
      show written (EndElement fresh) ++ r = _
      rw [← emits_EndElement.out_eq]
      simp [lit, cstr]
    rw [N, tags_close _ _ _ (by decide) (by decide)]
    rfl
  | BeginReference type addr =>
    have N : Op.out fmtP (.BeginReference type addr) ++ r =
        [] ++ (60 :: (lit "ref type=\"" ++ (cstr type ++ (lit "\" addr=\"" ++
          (cstr (fmtP addr) ++ (lit "\"" ++ (62 :: r))))))) := by
      show written (BeginReference fmtP type addr fresh) ++ r = _
      rw [← (emits_BeginReference fmtP type addr).out_eq]
      simp [lit, cstr]
    rw [N, tags_open2 _ _ _ _ _ _ (by decide) (by decide) (angleFree_gt h.1) (by decide)
      (angleFree_gt h.2)]
    rfl
  | EndReference =>
    have N : Op.out fmtP .EndReference ++ r = 60 :: (lit "/ref" ++ (62 :: ([] ++ r))) := by
      show written (EndReference fresh) ++ r = _
      rw [← emits_EndReference.out_eq]
      simp [lit, cstr]
    rw [N, tags_close _ _ _ (by decide) (by decide)]
    rfl
  | Text text =>
    have N : Op.out fmtP (.Text text) ++ r = cstr text ++ r := by
      show written (Text text fresh) ++ r = _
      rw [← (emits_Text text).out_eq]
    rw [N, tags_go_none_append _ _ (angleFree_lt h)]
    rfl

theorem tags_ops (fmtP : Nat → List Nat) (ops : List Op) (h : ∀ op ∈ ops, op.angleFree fmtP)
    (r : List Nat) :
    tags.go none (ops.flatMap (Op.out fmtP) ++ r)
      = ops.flatMap (Op.tags fmtP) ++ tags.go none r := by
  induction ops with
  | nil => rfl
  | cons op ops ih =>
    rw [List.flatMap_cons, List.flatMap_cons, List.append_assoc,
      tags_op fmtP op (h op (by simp)), ih (fun o ho => h o (List.mem_cons_of_mem op ho)),
      List.append_assoc]

theorem nesting_opens (fmtP : Nat → List Nat) (op : Op) (name : List Nat)
    (h : op.opens = some name) (st rest : List (List Nat)) :
    nesting st (Op.tags fmtP op ++ rest) = nesting (name :: st) rest := by
  cases op <;> simp only [Op.opens, Option.some.injEq, reduceCtorEq] at h <;> subst h <;> rfl

theorem nesting_closes (fmtP : Nat → List Nat) (op : Op) (name : List Nat)
    (h : op.closes = some name) (top : List Nat) (below rest : List (List Nat)) :
    nesting (top :: below) (Op.tags fmtP op ++ rest)
      = if top = name then nesting below rest else none := by
  cases op <;> simp only [Op.closes, Option.some.injEq, reduceCtorEq] at h <;> subst h <;> rfl

theorem tags_neither (fmtP : Nat → List Nat) (op : Op) (ho : op.opens = none)
    (hc : op.closes = none) : Op.tags fmtP op = [] := by
  cases op <;> first | rfl | simp [Op.opens, Op.closes] at ho hc

theorem nesting_ops (fmtP : Nat → List Nat) (ops : List Op) (base : List (List Nat)) :
    ∀ stack stack', callMachine stack ops = some stack' →
      nesting (stack ++ base) (ops.flatMap (Op.tags fmtP)) = some (stack' ++ base) := by
  induction ops with
  | nil =>
    intro stack stack' h
    simp only [callMachine, Option.some.injEq] at h
    subst h
    rfl
  | cons op ops ih =>
    intro stack stack' h
    rw [List.flatMap_cons]
    simp only [callMachine] at h
    cases hc : op.closes with
    | some name =>
      simp only [hc] at h
      cases stack with
      | nil => simp at h
      | cons top below =>
        simp only [] at h
        rw [List.cons_append, nesting_closes fmtP op name hc]
        by_cases ht : top = name
        · simp only [ht, if_true] at h ⊢
          exact ih below stack' h
        · simp [ht] at h
    | none =>
      simp only [hc] at h
      cases ho : op.opens with
      | some name =>
        simp only [ho] at h
        rw [nesting_opens fmtP op name ho]
        split at h
        · exact ih (name :: stack) stack' h
        · simp at h
      | none =>
        simp only [ho] at h
        rw [tags_neither fmtP op ho hc, List.nil_append]
        split at h
        · simp at h
        · exact ih stack stack' h

/-- C16 (well-formed nesting for disciplined callers): on an open session, for
every sequence of calls of the event API that follows the call state machine
from idle back to idle (`BeginCall`, then matched and properly nested
`BeginArg`/`EndArg`, `BeginReturn`/`EndReturn`, `BeginElement`/`EndElement`,
`BeginReference`/`EndReference` blocks and `Text` bodies, then `EndCall`) and
whose names, types, bodies and address renderings hold no `<`, `>` or `"`, the
tags appended are exactly those of the calls, in order, and they are balanced:
read against any stack of open elements, every closing tag closes the
innermost open element, of the same name, and the stack at the end is the
stack before the first call. -/
theorem disciplined_calls_balanced (fmtP : Nat → List Nat) (ops : List Op) (s : State)
    (h : s.g_gzFile ≠ none) (hp : ∀ op ∈ ops, op.plain fmtP)
    (hm : callMachine [] ops = some []) :
    tags ((written (runOps fmtP ops s)).drop (written s).length)
      = ops.flatMap (Op.tags fmtP) ∧
    ∀ base, nesting base (tags ((written (runOps fmtP ops s)).drop (written s).length))
      = some base := by
  have e : tags ((written (runOps fmtP ops s)).drop (written s).length)
      = ops.flatMap (Op.tags fmtP) := by
    rw [(emits_runOps fmtP ops).appends s h, List.drop_left]
    have := tags_ops fmtP ops (fun op ho => op_plain_angleFree fmtP op (hp op ho)) []
    simpa [tags, tags.go] using this
  refine ⟨e, fun base => ?_⟩
  rw [e]
  exact nesting_ops fmtP ops base [] [] hm

/-- Witness of C16: a call with an argument whose body is a reference holding
an element, and a return value, on a fresh open session. -/
theorem disciplined_calls_balanced_witness :
    fresh.g_gzFile ≠ none ∧
    (∀ op ∈ [Op.BeginCall (lit "glFoo") 1, .BeginArg (lit "Foo*") (lit "p"),
        .BeginReference (lit "Foo") 7, .BeginElement2 (lit "int") (lit "a"), .Text (lit "1"),
        .EndElement, .EndReference, .EndArg, .BeginReturn (lit "void"), .Text (lit "0"),
        .EndReturn, .EndCall 2], op.plain (fun _ => lit "0012FF7C")) ∧
    callMachine [] [Op.BeginCall (lit "glFoo") 1, .BeginArg (lit "Foo*") (lit "p"),
        .BeginReference (lit "Foo") 7, .BeginElement2 (lit "int") (lit "a"), .Text (lit "1"),
        .EndElement, .EndReference, .EndArg, .BeginReturn (lit "void"), .Text (lit "0"),
        .EndReturn, .EndCall 2] = some [] ∧
    nesting [lit "trace"] (tags ((written (runOps (fun _ => lit "0012FF7C")
      [Op.BeginCall (lit "glFoo") 1, .BeginArg (lit "Foo*") (lit "p"),
        .BeginReference (lit "Foo") 7, .BeginElement2 (lit "int") (lit "a"), .Text (lit "1"),
        .EndElement, .EndReference, .EndArg, .BeginReturn (lit "void"), .Text (lit "0"),
        .EndReturn, .EndCall 2] fresh)).drop (written fresh).length)) = some [lit "trace"] :=
  have hp : ∀ op ∈ [Op.BeginCall (lit "glFoo") 1, .BeginArg (lit "Foo*") (lit "p"),
      .BeginReference (lit "Foo") 7, .BeginElement2 (lit "int") (lit "a"), .Text (lit "1"),
      .EndElement, .EndReference, .EndArg, .BeginReturn (lit "void"), .Text (lit "0"),
      .EndReturn, .EndCall 2], op.plain (fun _ => lit "0012FF7C") := by
    simp only [List.mem_cons, List.mem_singleton, List.not_mem_nil, or_false, forall_eq_or_imp,
      forall_eq, Op.plain, plain, and_true]
    decide
  ⟨by decide, hp, by decide,
    (disciplined_calls_balanced (fun _ => lit "0012FF7C") _ fresh (by decide) hp
      (by decide)).2 [lit "trace"]⟩

/-! ## The document frame -/

set_option maxRecDepth 100000

/-- C14, the claim as stated fails: on the open session `fresh` let the codec
fail on the first external call, the `gzwrite` of the request `a`, so that
nothing is stored. The next request `b` calls `gzwrite` again, and its bytes
are stored when the codec accepts them. -/
theorem write_after_failure_calls_codec :
    stored (fun i => i == 0) (Write (lit "a") fresh) = [] ∧
    (Write (lit "b") (Write (lit "a") fresh)).trace
      = [Ext.gzwrite 1 (lit "a"), Ext.gzwrite 1 (lit "b")] ∧
    stored (fun i => i == 0) (Write (lit "b") (Write (lit "a") fresh)) = lit "b" := by
  decide

/-- C14 as amended: the value that `gzwrite` returns is discarded, so that a
write failure changes nothing in the logger: a write request never changes
`g_gzFile`, and while `g_gzFile` is not `NULL` every write request calls
`gzwrite` once more, with the bytes of the request. The sink is dead, every
write request being a no-op that does not call the codec, exactly while
`g_gzFile` is `NULL` (never opened, failed to open, or closed). -/
theorem sink_dead_only_when_null (s : State) (b : List Nat) :
    (Write b s).g_gzFile = s.g_gzFile ∧
    (s.g_gzFile = none → Write b s = s) ∧
    (∀ f, s.g_gzFile = some f → (Write b s).trace = s.trace ++ [Ext.gzwrite f (cstr b)]) := by
  refine ⟨(emits_Write b s).1, Write_none b s, fun f hf => ?_⟩
  rw [Write_open b s f hf]

/-- C15 (no interleaved calls under concurrency) fails on the code: no lock is
taken, so the calls of two threads may run in the order `BeginCall("f")` of the
first thread, `BeginCall("g")` of the second, `EndCall()` of the first,
`EndCall()` of the second. The bytes written then hold the opening of the call
`g` between the opening and the end of the call `f`, and neither thread's call
element (what it writes when it runs alone) is a contiguous block of the
output. -/
theorem concurrent_calls_interleave :
    Interleave [Op.BeginCall (lit "f") 1, Op.EndCall 3] [Op.BeginCall (lit "g") 2, Op.EndCall 4]
      [Op.BeginCall (lit "f") 1, Op.BeginCall (lit "g") 2, Op.EndCall 3, Op.EndCall 4] ∧
    written (runOps (fun _ => [])
      [Op.BeginCall (lit "f") 1, Op.BeginCall (lit "g") 2, Op.EndCall 3, Op.EndCall 4] fresh) =
      lit ("\t<call name=\"f\">\r\n\t\t<starttsc>0000000000000001</starttsc>\r\n" ++
        "\t<call name=\"g\">\r\n\t\t<starttsc>0000000000000002</starttsc>\r\n" ++
        "\t\t<endtsc>0000000000000003</endtsc>\r\n\t</call>\r\n" ++
        "\t\t<endtsc>0000000000000004</endtsc>\r\n\t</call>\r\n") ∧
    ¬ written (runOps (fun _ => []) [Op.BeginCall (lit "f") 1, Op.EndCall 3] fresh) <:+:
      written (runOps (fun _ => [])
        [Op.BeginCall (lit "f") 1, Op.BeginCall (lit "g") 2, Op.EndCall 3, Op.EndCall 4] fresh) ∧
    ¬ written (runOps (fun _ => []) [Op.BeginCall (lit "g") 2, Op.EndCall 4] fresh) <:+:
      written (runOps (fun _ => [])
        [Op.BeginCall (lit "f") 1, Op.BeginCall (lit "g") 2, Op.EndCall 3, Op.EndCall 4] fresh) :=
  ⟨Interleave.left _ (Interleave.right _ (Interleave.left _ (Interleave.right _ Interleave.nil))),
    by decide, by decide, by decide⟩

/-- C17 (re-open closes the previous session) fails on the code: in the
process of `demoEnv`, `Open("a")` writes the prologue to the handle 15;
`Open("b")` then calls `gzclose` on that handle without writing `</trace>`, so
that the bytes of the first log are the prologue alone, whereas `Close` on the
same session does write `</trace>` before `gzclose`. -/
theorem reopen_skips_closing_tag :
    ((Open demoEnv 2 (lit "a") initial).bind (Open demoEnvLater 2 (lit "b"))).map
      (writtenTo 15) = some (lit ("<?xml version='1.0' encoding='UTF-8'?>\r\n" ++
        "<?xml-stylesheet type='text/xsl' href='apitrace.xsl'?>\r\n<trace>\r\n")) ∧
    ((Open demoEnv 2 (lit "a") initial).bind (Open demoEnvLater 2 (lit "b"))).map
      (fun s => (decide (Ext.gzclose 15 ∈ s.trace), s.g_gzFile)) = some (true, some 115) ∧
    (Open demoEnv 2 (lit "a") initial).map (fun s => writtenTo 15 (Close s))
      = some (lit ("<?xml version='1.0' encoding='UTF-8'?>\r\n" ++
        "<?xml-stylesheet type='text/xsl' href='apitrace.xsl'?>\r\n<trace>\r\n</trace>\r\n")) := by
  decide

end Log
